import Mathlib

/-!
A verification development for the shaystack (Haystack API) repository:
the Haystack value algebra, grid model, Zinc / JSON / CSV / Trio codecs,
the filter sublanguage with its in-memory evaluator and SQL translation,
the grid merge/diff algebra, and the Flask application layer.

The core library modules are not present in the source tree (only their
packaging, documentation and callers are), so the core data model and
operations are modelled from the specification, as marked on each
definition.  The Flask application layer (`app/__init__.py`) is present
in source form and is embedded from the source.
-/

namespace Shaystack

/-- Modelled from the spec (§3.1, the core value module is missing from the
source tree): the numeric payload of a `Number`.  A finite number is a
decimal `m / 10^s` (mantissa and scale); `NaN` and `±Inf` are symbolic, which
models the spec's canonical bit-identity treatment of NaN. -/
inductive NumVal where
  | finite (m : Int) (s : Nat)
  | nan
  | posInf
  | negInf
deriving DecidableEq, Repr

/-- Modelled from the spec (§3.1, the core value module is missing from the
source tree): the tagged sum of all Haystack values.  A nested grid carries
its metadata, column definitions and rows directly. -/
inductive Value where
  | null
  | marker
  | remove
  | na
  | bool (b : Bool)
  | number (n : NumVal) (unit : Option String)
  | str (s : String)
  | uri (s : String)
  | ref (name : String) (dis : Option String)
  | bin (mime : String)
  | date (y m d : Nat)
  | time (h mi s ms : Nat)
  | dateTime (y mo d h mi s : Nat) (offMin : Int) (tz : String)
  | coord (lat lng : NumVal)
  | xstr (t v : String)
  | list (xs : List Value)
  | dict (xs : List (String × Value))
  | grid (meta : List (String × Value)) (cols : List (String × List (String × Value)))
      (rows : List (List (String × Value)))
deriving Repr

mutual

/-- Structural equality test on values (spec §3.1: "Equality is structural"). -/
def Value.beq : Value → Value → Bool
  | .null, .null => true
  | .marker, .marker => true
  | .remove, .remove => true
  | .na, .na => true
  | .bool b, .bool b' => b == b'
  | .number n u, .number n' u' => n == n' && u == u'
  | .str s, .str s' => s == s'
  | .uri s, .uri s' => s == s'
  | .ref n d, .ref n' d' => n == n' && d == d'
  | .bin m, .bin m' => m == m'
  | .date y m d, .date y' m' d' => y == y' && m == m' && d == d'
  | .time h mi s ms, .time h' mi' s' ms' => h == h' && mi == mi' && s == s' && ms == ms'
  | .dateTime y mo d h mi s o tz, .dateTime y' mo' d' h' mi' s' o' tz' =>
      y == y' && mo == mo' && d == d' && h == h' && mi == mi' && s == s' && o == o' && tz == tz'
  | .coord la ln, .coord la' ln' => la == la' && ln == ln'
  | .xstr t v, .xstr t' v' => t == t' && v == v'
  | .list xs, .list ys => Value.beqList xs ys
  | .dict xs, .dict ys => Value.beqDict xs ys
  | .grid m c r, .grid m' c' r' =>
      Value.beqDict m m' && Value.beqCols c c' && Value.beqRows r r'
  | _, _ => false

/-- Pointwise equality test for lists of values. -/
def Value.beqList : List Value → List Value → Bool
  | [], [] => true
  | x :: xs, y :: ys => Value.beq x y && Value.beqList xs ys
  | _, _ => false

/-- Pointwise equality test for dicts (ordered tag/value associations). -/
def Value.beqDict : List (String × Value) → List (String × Value) → Bool
  | [], [] => true
  | (k, v) :: xs, (k', v') :: ys => k == k' && Value.beq v v' && Value.beqDict xs ys
  | _, _ => false

/-- Pointwise equality test for column definition lists. -/
def Value.beqCols : List (String × List (String × Value)) → List (String × List (String × Value)) → Bool
  | [], [] => true
  | (k, m) :: xs, (k', m') :: ys => k == k' && Value.beqDict m m' && Value.beqCols xs ys
  | _, _ => false

/-- Pointwise equality test for row lists. -/
def Value.beqRows : List (List (String × Value)) → List (List (String × Value)) → Bool
  | [], [] => true
  | r :: xs, r' :: ys => Value.beqDict r r' && Value.beqRows xs ys
  | _, _ => false

end

/-! ### Digit-level text primitives, shared by every codec's scalar layer -/

/-- The character for a single decimal digit. -/
def digitChar (d : Nat) : Char := Char.ofNat (48 + d)

/-- Digit extraction, most significant first; the fuel bounds the digit
count and is structural so that literals reduce definitionally. -/
def natLitAux : Nat → Nat → List Char
  | 0, _ => []
  | fuel + 1, n => if n = 0 then [] else natLitAux fuel (n / 10) ++ [digitChar (n % 10)]

/-- Decimal rendering of a natural number, most significant digit first. -/
def natLit (n : Nat) : List Char :=
  if n = 0 then ['0'] else natLitAux n n

/-- Numeric value of a single digit character. -/
def digitVal (c : Char) : Nat := c.toNat - 48

/-- Numeric value of a digit string, most significant digit first. -/
def digitsVal (cs : List Char) : Nat := cs.foldl (fun a c => a * 10 + digitVal c) 0

/-- Decimal rendering of an integer. -/
def intLit (i : Int) : List Char :=
  if i < 0 then '-' :: natLit i.natAbs else natLit i.natAbs

/-- Left-pad a digit string with zeros to width `w`. -/
def padZeros (w : Nat) (cs : List Char) : List Char :=
  List.replicate (w - cs.length) '0' ++ cs

/-- Fixed-width decimal rendering of a natural number. -/
def natLitW (w n : Nat) : List Char := padZeros w (natLit n)

/-- Reads exactly `w` decimal digits; returns their value and the rest. -/
def parseFixedNat (w : Nat) (cs : List Char) : Option (Nat × List Char) :=
  let ds := cs.take w
  if ds.length = w && ds.all Char.isDigit then some (digitsVal ds, cs.drop w) else none

/-- Reads a maximal nonempty run of decimal digits. -/
def parseNat (cs : List Char) : Option (Nat × List Char) :=
  let ds := cs.takeWhile Char.isDigit
  if ds.isEmpty then none else some (digitsVal ds, cs.dropWhile Char.isDigit)

/-- Modelled from the spec (§4.C, the numeric scalar layer is missing from the
source tree): decimal rendering of a `NumVal`.  A finite `m / 10^s` renders as
the integer part, then `.` and exactly `s` fraction digits when `s > 0`;
`NaN`, `INF` and `-INF` render symbolically. -/
def renderNum : NumVal → List Char
  | .nan => ['N', 'a', 'N']
  | .posInf => ['I', 'N', 'F']
  | .negInf => ['-', 'I', 'N', 'F']
  | .finite m s =>
      if s = 0 then intLit m
      else (if m < 0 then ['-'] else []) ++
        natLit (m.natAbs / 10 ^ s) ++ '.' :: natLitW s (m.natAbs % 10 ^ s)

/-- Reads an unsigned decimal literal `digits[.digits]`, returning the value
as mantissa and scale. -/
def parseDec (cs : List Char) : Option (Nat × Nat × List Char) :=
  match parseNat cs with
  | none => none
  | some (ip, rest) =>
    if rest.head? = some '.' then
      match parseNat (rest.drop 1) with
      | none => none
      | some (fp, rest3) =>
          let k := ((rest.drop 1).takeWhile Char.isDigit).length
          some (ip * 10 ^ k + fp, k, rest3)
    else some (ip, 0, rest)

/-- Reads a signed decimal or symbolic numeric literal into a `NumVal`. -/
def parseNumVal (cs : List Char) : Option (NumVal × List Char) :=
  if cs.take 3 = ['N', 'a', 'N'] then some (.nan, cs.drop 3)
  else if cs.take 3 = ['I', 'N', 'F'] then some (.posInf, cs.drop 3)
  else if cs.take 4 = ['-', 'I', 'N', 'F'] then some (.negInf, cs.drop 4)
  else if cs.head? = some '-' then
    match parseDec (cs.drop 1) with
    | some (m, s, rest2) => some (.finite (-(m : Int)) s, rest2)
    | none => none
  else
    match parseDec cs with
    | some (m, s, rest2) => some (.finite (m : Int) s, rest2)
    | none => none

/-! ### JSON codec scalar layer (tag-encoding)

Modelled from the spec (§4.D, the JSON codec module is missing from the
source tree): scalars encode as strings with a leading sigil (`n:` number,
`r:` ref, `u:` uri, `t:` datetime, `d:` date, `h:` time, `c:` coord,
`x:` xstr, `b:` bin, `m:` marker, `-:` remove, `z:` NA, and `s:` for
strings, per the `"s:s"` bound in §4.G); booleans encode as JSON
`true`/`false` and Null as JSON `null`.  A Ref encodes by name only: the
spec (§3.1) makes the display string advisory and Refs compare by name, and
the SQL soundness law (§8.5) compares these encodings for equality.
Containers render with their JSON framing; only their leading character is
relevant to the predicates modelled here. -/

/-- Offset render for a DateTime: `Z` for zero else `±hh:mm`. -/
def renderOffset (off : Int) : List Char :=
  if off = 0 then ['Z']
  else (if off < 0 then ['-'] else ['+']) ++
    natLitW 2 (off.natAbs / 60) ++ ':' :: natLitW 2 (off.natAbs % 60)

/-- ISO render of a calendar date. -/
def renderDate (y m d : Nat) : List Char :=
  natLitW 4 y ++ '-' :: natLitW 2 m ++ '-' :: natLitW 2 d

/-- ISO render of a wall-clock time with millisecond precision. -/
def renderTime (h mi s ms : Nat) : List Char :=
  natLitW 2 h ++ ':' :: natLitW 2 mi ++ ':' :: natLitW 2 s ++ '.' :: natLitW 3 ms

/-- ISO render of a DateTime instant: date `T` time, offset, space, zone name. -/
def renderDateTime (y mo d h mi s : Nat) (off : Int) (tz : String) : List Char :=
  renderDate y mo d ++ 'T' :: natLitW 2 h ++ ':' :: natLitW 2 mi ++ ':' :: natLitW 2 s ++
    renderOffset off ++ ' ' :: tz.data

/-- Numeric payload with optional unit, as bound to SQL parameters
(`n:3 kg` without the sigil). -/
def renderNumUnit (n : NumVal) (u : Option String) : List Char :=
  renderNum n ++ (match u with | some u => ' ' :: u.data | none => [])

mutual

/-- Tag-encoding of one value (see the section comment). -/
def encodeValue : Value → List Char
  | .null => ['n', 'u', 'l', 'l']
  | .marker => ['m', ':']
  | .remove => ['-', ':']
  | .na => ['z', ':']
  | .bool b => if b then ['t', 'r', 'u', 'e'] else ['f', 'a', 'l', 's', 'e']
  | .number n u => 'n' :: ':' :: renderNumUnit n u
  | .str s => 's' :: ':' :: s.data
  | .uri s => 'u' :: ':' :: s.data
  | .ref n _ => 'r' :: ':' :: n.data
  | .bin m => 'b' :: ':' :: m.data
  | .date y m d => 'd' :: ':' :: renderDate y m d
  | .time h mi s ms => 'h' :: ':' :: renderTime h mi s ms
  | .dateTime y mo d h mi s o tz => 't' :: ':' :: renderDateTime y mo d h mi s o tz
  | .coord la ln => 'c' :: ':' :: renderNum la ++ ',' :: renderNum ln
  | .xstr t v => 'x' :: ':' :: t.data ++ ':' :: v.data
  | .list xs => '[' :: encodeList xs ++ [']']
  | .dict xs => '\x7b' :: encodeDict xs ++ ['\x7d']
  | .grid m _ _ => '<' :: '<' :: encodeDict m ++ ['>', '>']

/-- Encoding of a list body, comma separated. -/
def encodeList : List Value → List Char
  | [] => []
  | [x] => encodeValue x
  | x :: xs => encodeValue x ++ ',' :: encodeList xs

/-- Encoding of a dict body, comma separated `name:value` pairs. -/
def encodeDict : List (String × Value) → List Char
  | [] => []
  | [(k, v)] => k.data ++ ':' :: encodeValue v
  | (k, v) :: xs => k.data ++ ':' :: encodeValue v ++ ',' :: encodeDict xs

end

/-- The kind discriminator of an encoded value: `B` for a boolean literal,
otherwise the leading character when a sigil colon follows. -/
def kindTag (cs : List Char) : Option Char :=
  if cs = ['t', 'r', 'u', 'e'] then some 'B'
  else if cs = ['f', 'a', 'l', 's', 'e'] then some 'B'
  else if (cs.drop 1).head? = some ':' then cs.head?
  else none

/-- Decodes a numeric payload (number and optional unit) from the text after
the `n:` sigil, as the SQL `CAST(SUBSTR(...))` predicate reads it. -/
def decodeNumPayload (cs : List Char) : Option (NumVal × Option String) :=
  match parseNumVal cs with
  | some (n, []) => some (n, none)
  | some (n, ' ' :: u) => if u.isEmpty then none else some (n, some ⟨u⟩)
  | _ => none

/-- Decodes an encoded number cell (`n:` payload). -/
def decodeNumEnc (cs : List Char) : Option (NumVal × Option String) :=
  match cs with
  | 'n' :: ':' :: rest => decodeNumPayload rest
  | _ => none

/-- Decodes an encoded string cell (`s:` payload). -/
def decodeStrEnc (cs : List Char) : Option String :=
  match cs with
  | 's' :: ':' :: rest => some ⟨rest⟩
  | _ => none

/-- Decodes an encoded ref cell (`r:` payload) to the ref name. -/
def decodeRefEnc (cs : List Char) : Option String :=
  match cs with
  | 'r' :: ':' :: rest => some ⟨rest⟩
  | _ => none

/-- Decodes an ISO date. -/
def parseDateBody (cs : List Char) : Option ((Nat × Nat × Nat) × List Char) :=
  match parseFixedNat 4 cs with
  | some (y, '-' :: r1) =>
      match parseFixedNat 2 r1 with
      | some (m, '-' :: r2) =>
          match parseFixedNat 2 r2 with
          | some (d, r3) => some ((y, m, d), r3)
          | none => none
      | _ => none
  | _ => none

/-- Decodes an ISO time with mandatory millisecond part. -/
def parseTimeBody (cs : List Char) : Option ((Nat × Nat × Nat × Nat) × List Char) :=
  match parseFixedNat 2 cs with
  | some (h, ':' :: r1) =>
      match parseFixedNat 2 r1 with
      | some (mi, ':' :: r2) =>
          match parseFixedNat 2 r2 with
          | some (s, '.' :: r3) =>
              match parseFixedNat 3 r3 with
              | some (ms, r4) => some ((h, mi, s, ms), r4)
              | none => none
          | _ => none
      | _ => none
  | _ => none

/-- Decodes an offset: `Z` or `±hh:mm`. -/
def parseOffset (cs : List Char) : Option (Int × List Char) :=
  match cs with
  | 'Z' :: rest => some (0, rest)
  | '+' :: r0 =>
      match parseFixedNat 2 r0 with
      | some (h, ':' :: r1) =>
          match parseFixedNat 2 r1 with
          | some (m, r2) => some ((h * 60 + m : Nat), r2)
          | none => none
      | _ => none
  | '-' :: r0 =>
      match parseFixedNat 2 r0 with
      | some (h, ':' :: r1) =>
          match parseFixedNat 2 r1 with
          | some (m, r2) => some (-((h * 60 + m : Nat) : Int), r2)
          | none => none
      | _ => none
  | _ => none

/-- Decodes an encoded date cell (`d:` payload). -/
def decodeDateEnc (cs : List Char) : Option (Nat × Nat × Nat) :=
  match cs with
  | 'd' :: ':' :: rest =>
      match parseDateBody rest with
      | some (ymd, []) => some ymd
      | _ => none
  | _ => none

/-- Decodes an encoded time cell (`h:` payload). -/
def decodeTimeEnc (cs : List Char) : Option (Nat × Nat × Nat × Nat) :=
  match cs with
  | 'h' :: ':' :: rest =>
      match parseTimeBody rest with
      | some (t, []) => some t
      | _ => none
  | _ => none

/-- Decodes the DateTime payload after the `t:` sigil: ISO instant, offset,
space, zone name. -/
def parseDateTimeNoMs (cs : List Char) :
    Option ((Nat × Nat × Nat × Nat × Nat × Nat) × Int × List Char) :=
  match parseDateBody cs with
  | some ((y, mo, d), 'T' :: r1) =>
      match parseFixedNat 2 r1 with
      | some (h, ':' :: r2) =>
          match parseFixedNat 2 r2 with
          | some (mi, ':' :: r3) =>
              match parseFixedNat 2 r3 with
              | some (s, r4) =>
                  match parseOffset r4 with
                  | some (off, r5) => some ((y, mo, d, h, mi, s), off, r5)
                  | none => none
              | none => none
          | _ => none
      | _ => none
  | _ => none

/-- Decodes an encoded DateTime cell (`t:` payload). -/
def decodeDateTimeEnc (cs : List Char) :
    Option ((Nat × Nat × Nat × Nat × Nat × Nat) × Int × String) :=
  match cs with
  | 't' :: ':' :: rest =>
      match parseDateTimeNoMs rest with
      | some (c, off, ' ' :: tz) => if tz.isEmpty then none else some (c, off, ⟨tz⟩)
      | _ => none
  | _ => none

/-- Modelled from the spec (§4.D): JSON codec scalar parsing, the inverse of
`encodeValue` on scalars.  Container framing belongs to the grid layer and is
not a scalar. -/
def parseJsonScalar (cs : List Char) : Option Value :=
  match cs with
  | 'n' :: 'u' :: 'l' :: 'l' :: [] => some .null
  | 't' :: 'r' :: 'u' :: 'e' :: [] => some (.bool true)
  | 'f' :: 'a' :: 'l' :: 's' :: 'e' :: [] => some (.bool false)
  | 'm' :: ':' :: [] => some .marker
  | '-' :: ':' :: [] => some .remove
  | 'z' :: ':' :: [] => some .na
  | 'n' :: ':' :: rest =>
      match decodeNumPayload rest with
      | some (n, u) => some (.number n u)
      | none => none
  | 's' :: ':' :: rest => some (.str ⟨rest⟩)
  | 'u' :: ':' :: rest => some (.uri ⟨rest⟩)
  | 'r' :: ':' :: rest => some (.ref ⟨rest⟩ none)
  | 'b' :: ':' :: rest => some (.bin ⟨rest⟩)
  | 'd' :: ':' :: rest =>
      match parseDateBody rest with
      | some ((y, m, d), []) => some (.date y m d)
      | _ => none
  | 'h' :: ':' :: rest =>
      match parseTimeBody rest with
      | some ((h, mi, s, ms), []) => some (.time h mi s ms)
      | _ => none
  | 't' :: ':' :: rest =>
      match parseDateTimeNoMs rest with
      | some ((y, mo, d, h, mi, s), off, ' ' :: tz) =>
          if tz.isEmpty then none else some (.dateTime y mo d h mi s off ⟨tz⟩)
      | _ => none
  | 'c' :: ':' :: rest =>
      match parseNumVal rest with
      | some (la, ',' :: r1) =>
          match parseNumVal r1 with
          | some (ln, []) => some (.coord la ln)
          | _ => none
      | _ => none
  | 'x' :: ':' :: rest =>
      let t := rest.takeWhile (fun c => !(c = ':'))
      match rest.dropWhile (fun c => !(c = ':')) with
      | ':' :: v => some (.xstr ⟨t⟩ ⟨v⟩)
      | _ => none
  | _ => none

/-! ### Canonical-form predicates

The codecs emit numbers in shortest round-trip form (§4.C) and ISO
components within their calendar bounds; these predicates state that a
value is in the form the emitters produce, and the universal theorems about
comparisons assume them. -/

/-- A finite number is canonical when its scale carries no trailing zero. -/
def canonNum : NumVal → Bool
  | .finite m s => s == 0 || !(m % 10 == 0)
  | _ => true

/-- A unit token is nonempty and contains no space. -/
def canonUnit : Option String → Bool
  | none => true
  | some u => !u.isEmpty && u.data.all (fun c => !(c = ' '))

/-- Canonical form of a scalar value (containers are framed by the grid
layer and impose no scalar constraint here). -/
def canonV : Value → Bool
  | .number n u => canonNum n && canonUnit u
  | .date y m d => decide (y < 10000) && decide (m < 100) && decide (d < 100)
  | .time h mi s ms =>
      decide (h < 100) && decide (mi < 60) && decide (s < 60) && decide (ms < 1000)
  | .dateTime y mo d h mi s off tz =>
      decide (y < 10000) && decide (mo < 100) && decide (d < 100) && decide (h < 100) &&
      decide (mi < 60) && decide (s < 60) && decide (off.natAbs < 6000) && !tz.isEmpty
  | .coord la ln => canonNum la && canonNum ln
  | .xstr t _ => !t.isEmpty && t.data.all (fun c => !(c = ':'))
  | _ => true

/-! ### Value-level comparison semantics (spec §4.E/4.F)

Numbers compare numerically with unit agreement; NaN equals NaN
(bit-identity, §8); Refs compare by name; ordering is defined for numbers,
strings (code point), dates, times and DateTimes (by instant); Booleans are
equality-only. -/

/-- Numeric equality (cross-multiplied decimal comparison; NaN is equal to
NaN by bit-identity). -/
def numEqB : NumVal → NumVal → Bool
  | .finite m s, .finite m' s' => m * (10 : Int) ^ s' == m' * (10 : Int) ^ s
  | .nan, .nan => true
  | .posInf, .posInf => true
  | .negInf, .negInf => true
  | _, _ => false

/-- Numeric strict order; NaN compares less than nothing. -/
def numLtB : NumVal → NumVal → Bool
  | .finite m s, .finite m' s' => m * (10 : Int) ^ s' < m' * (10 : Int) ^ s
  | .negInf, .finite _ _ => true
  | .negInf, .posInf => true
  | .finite _ _, .posInf => true
  | _, _ => false

/-- Lexicographic code-point order on character lists. -/
def charListLt : List Char → List Char → Bool
  | [], [] => false
  | [], _ => true
  | _ :: _, [] => false
  | x :: xs, y :: ys =>
      if x.toNat < y.toNat then true
      else if x.toNat = y.toNat then charListLt xs ys else false

/-- Order key of a calendar date. -/
def dateKey (y m d : Nat) : Nat := (y * 100 + m) * 100 + d

/-- Order key of a wall-clock time. -/
def timeKey (h mi s ms : Nat) : Nat := ((h * 60 + mi) * 60 + s) * 1000 + ms

/-- Days from the civil epoch (proleptic Gregorian), used to order instants. -/
def daysFromCivil (y m d : Nat) : Int :=
  let yAdj : Int := if m ≤ 2 then (y : Int) - 1 else (y : Int)
  let era : Int := (if yAdj ≥ 0 then yAdj else yAdj - 399) / 400
  let yoe : Int := yAdj - era * 400
  let mp : Int := ((m : Int) + 9) % 12
  let doy : Int := (153 * mp + 2) / 5 + (d : Int) - 1
  let doe : Int := yoe * 365 + yoe / 4 - yoe / 100 + doy
  era * 146097 + doe - 719468

/-- Order key of a DateTime: its instant in minutes-and-seconds since the
epoch, offset applied (spec: "DateTimes order by instant"). -/
def instantKey (y mo d h mi s : Nat) (off : Int) : Int :=
  ((daysFromCivil y mo d * 1440 + (h * 60 + mi : Nat)) - off) * 60 + (s : Nat)

/-! ### Filter AST and in-memory evaluator

Modelled from the spec (§4.E/4.F, the filter module is missing from the
source tree).  The AST follows the grammar `or / and / cmp / unary / path`;
a comparison applies an operator and a scalar literal to a dotted path.
Malformed ASTs cannot be constructed in this typed embedding, matching the
spec's remark that the parser cannot produce them. -/

/-- An entity: an ordered tag/value dict. -/
abbrev Entity := List (String × Value)

/-- First binding of a tag in an entity. -/
def lookupTag (e : Entity) (t : String) : Option Value :=
  match e.find? (fun kv => kv.1 == t) with
  | some kv => some kv.2
  | none => none

/-- Scalar literals of the filter grammar (§4.E `scalar`). -/
inductive FScalar where
  | fnull
  | fmarker
  | fremove
  | fna
  | fbool (b : Bool)
  | fnum (n : NumVal) (u : Option String)
  | fstr (s : String)
  | furi (s : String)
  | fref (name : String)
  | fdate (y m d : Nat)
  | ftime (h mi s ms : Nat)
  | fdateTime (y mo d h mi s : Nat) (off : Int) (tz : String)
  | fcoord (la ln : NumVal)
deriving DecidableEq, Repr

/-- Comparison operators of the filter grammar. -/
inductive CmpOp where
  | eq | ne | lt | le | gt | ge
deriving DecidableEq, Repr

/-- Filter expressions: bare path (has), path comparison, `not`, `and`, `or`. -/
inductive Filter where
  | has (p : List String)
  | cmp (p : List String) (op : CmpOp) (v : FScalar)
  | notF (f : Filter)
  | andF (a b : Filter)
  | orF (a b : Filter)
deriving DecidableEq, Repr

/-- The ref name of an entity's `id` tag, if any. -/
def idOf (e : Entity) : Option String :=
  match lookupTag e "id" with
  | some (.ref n _) => some n
  | _ => none

/-- Resolver derived from the entity set: first entity whose `id` is the
given ref name (§4.F "a resolver ref → entity|None derived from E"). -/
def resolveRef (es : List Entity) (n : String) : Option Entity :=
  es.find? (fun e2 => idOf e2 == some n)

/-- Dotted-path dereference: each hop must be a Ref that resolves against
the entity set; a broken chain yields `none`. -/
def evalPath (es : List Entity) : Entity → List String → Option Value
  | _, [] => none
  | e, [t] => lookupTag e t
  | e, t :: rest =>
      match lookupTag e t with
      | some (.ref n _) =>
          match resolveRef es n with
          | some e2 => evalPath es e2 rest
          | none => none
      | _ => none

/-- Truth of a present tag value for a bare path: present, not Null and not
the Boolean false. -/
def hasTruth : Value → Bool
  | .null => false
  | .bool false => false
  | _ => true

/-- Equality of an entity value against a filter literal: structural, with
numbers compared numerically under unit agreement and Refs by name.
Type-incompatible pairs are false, never an error. -/
def semEq : Value → FScalar → Bool
  | .marker, .fmarker => true
  | .remove, .fremove => true
  | .na, .fna => true
  | .bool b, .fbool b' => b == b'
  | .number n u, .fnum n' u' => numEqB n n' && u == u'
  | .str s, .fstr s' => s == s'
  | .uri s, .furi s' => s == s'
  | .ref n _, .fref n' => n == n'
  | .date y m d, .fdate y' m' d' => y == y' && m == m' && d == d'
  | .time h mi s ms, .ftime h' mi' s' ms' => h == h' && mi == mi' && s == s' && ms == ms'
  | .dateTime y mo d h mi s o tz, .fdateTime y' mo' d' h' mi' s' o' tz' =>
      y == y' && mo == mo' && d == d' && h == h' && mi == mi' && s == s' && o == o' && tz == tz'
  | .coord la ln, .fcoord la' ln' => numEqB la la' && numEqB ln ln'
  | _, _ => false

/-- Type compatibility of an entity value with a filter literal, the guard
of `!=` (mistyped comparisons degrade to false). -/
def typeCompat : Value → FScalar → Bool
  | .marker, .fmarker => true
  | .remove, .fremove => true
  | .na, .fna => true
  | .bool _, .fbool _ => true
  | .number _ _, .fnum _ _ => true
  | .str _, .fstr _ => true
  | .uri _, .furi _ => true
  | .ref _ _, .fref _ => true
  | .date _ _ _, .fdate _ _ _ => true
  | .time _ _ _ _, .ftime _ _ _ _ => true
  | .dateTime _ _ _ _ _ _ _ _, .fdateTime _ _ _ _ _ _ _ _ => true
  | .coord _ _, .fcoord _ _ => true
  | _, _ => false

/-- Numeric order step shared with the evaluator semantics. -/
def numOrdB (op : CmpOp) (n : NumVal) (u : Option String) (n' : NumVal)
    (u' : Option String) : Bool :=
  match op with
  | .lt => u == u' && numLtB n n'
  | .le => (u == u' && numLtB n n') || (numEqB n n' && u == u')
  | .gt => u == u' && numLtB n' n
  | .ge => (u == u' && numLtB n' n) || (numEqB n n' && u == u')
  | _ => false

/-- Order step on a decoded order key. -/
def keyOrdB {α : Type} [LinearOrder α] (op : CmpOp) (k k' : α) : Bool :=
  match op with
  | .lt => decide (k < k')
  | .le => decide (k < k') || decide (k = k')
  | .gt => decide (k' < k)
  | .ge => decide (k' < k) || decide (k = k')
  | _ => false

/-- Order of an entity value against a filter literal: numbers under unit
agreement, strings by code point, dates, times and DateTimes by their
instant key; anything else (Booleans included) is false. -/
def semOrd (op : CmpOp) : Value → FScalar → Bool
  | .number n u, .fnum n' u' => numOrdB op n u n' u'
  | .str s, .fstr s' =>
      (match op with
       | .lt => charListLt s.data s'.data
       | .le => charListLt s.data s'.data || decide (s = s')
       | .gt => charListLt s'.data s.data
       | .ge => charListLt s'.data s.data || decide (s = s')
       | _ => false)
  | .date y m d, .fdate y' m' d' => keyOrdB op (dateKey y m d) (dateKey y' m' d')
  | .time h mi s ms, .ftime h' mi' s' ms' =>
      keyOrdB op (timeKey h mi s ms) (timeKey h' mi' s' ms')
  | .dateTime y mo d h mi s o _, .fdateTime y' mo' d' h' mi' s' o' _ =>
      keyOrdB op (instantKey y mo d h mi s o) (instantKey y' mo' d' h' mi' s' o')
  | _, _ => false

/-- One comparison step of the evaluator. -/
def semCmp (op : CmpOp) (v : Value) (fs : FScalar) : Bool :=
  match op with
  | .eq => semEq v fs
  | .ne => typeCompat v fs && !semEq v fs
  | _ => semOrd op v fs

/-- The in-memory filter evaluator (§4.F): total on data, returning a
Boolean for every well-typed AST, entity set and entity. -/
def evaluate (f : Filter) (es : List Entity) (e : Entity) : Bool :=
  match f with
  | .has p =>
      match evalPath es e p with
      | some v => hasTruth v
      | none => false
  | .cmp p op fs =>
      match evalPath es e p with
      | some v => semCmp op v fs
      | none => false
  | .notF g => !evaluate g es e
  | .andF a b => evaluate a es e && evaluate b es e
  | .orF a b => evaluate a es e || evaluate b es e

/-- Selection over an entity set, preserving source order (§4.F). -/
def select (f : Filter) (es : List Entity) : List Entity :=
  es.filter (fun e => evaluate f es e)

/-! ### Filter → SQL translator (§4.G)

Modelled from the spec (the translator module is missing from the source
tree).  The translator walks the AST and emits a parameterised JSON-path
predicate over the `entity` column; each node below models one emitted
predicate form, carrying its bound parameter.  The SQL evaluation model
runs a predicate over rows holding the JSON tag-encoding of each entity;
`json_extract` is modelled as tag lookup in that encoding, with JSON `null`
extracting to SQL NULL.  SQL NULL propagation is abstracted to two-valued
predicates, the level at which the spec describes the emitted WHERE
clauses. -/

/-- A database row: the JSON object of one entity, tag by tag. -/
abbrev DbRow := List (String × List Char)

/-- Loading an entity into the `entity` JSON column. -/
def encodeEntity (e : Entity) : DbRow :=
  e.map (fun kv => (kv.1, encodeValue kv.2))

/-- `json_extract(entity, '$.tag')`: the encoded tag text, NULL when the
tag is absent or JSON null. -/
def jsonExtract (row : DbRow) (t : String) : Option (List Char) :=
  match row.find? (fun kv => kv.1 == t) with
  | some kv => if kv.2 = ['n', 'u', 'l', 'l'] then none else some kv.2
  | none => none

/-- The kind discriminator the translator assigns to a literal, matched
against `kindTag` of the stored encoding in a type-guarded `!=`. -/
def fsKind : FScalar → Char
  | .fnull => '0'
  | .fmarker => 'm'
  | .fremove => '-'
  | .fna => 'z'
  | .fbool _ => 'B'
  | .fnum _ _ => 'n'
  | .fstr _ => 's'
  | .furi _ => 'u'
  | .fref _ => 'r'
  | .fdate _ _ _ => 'd'
  | .ftime _ _ _ _ => 'h'
  | .fdateTime _ _ _ _ _ _ _ _ => 't'
  | .fcoord _ _ => 'c'

/-- Tag-encoding of a filter literal, the bound parameter of an equality
predicate (§4.G: `"s:s"`, `"n:3 kg"` after tag-encoding). -/
def encodeF : FScalar → List Char
  | .fnull => ['n', 'u', 'l', 'l']
  | .fmarker => ['m', ':']
  | .fremove => ['-', ':']
  | .fna => ['z', ':']
  | .fbool b => if b then ['t', 'r', 'u', 'e'] else ['f', 'a', 'l', 's', 'e']
  | .fnum n u => 'n' :: ':' :: renderNumUnit n u
  | .fstr s => 's' :: ':' :: s.data
  | .furi s => 'u' :: ':' :: s.data
  | .fref n => 'r' :: ':' :: n.data
  | .fdate y m d => 'd' :: ':' :: renderDate y m d
  | .ftime h mi s ms => 'h' :: ':' :: renderTime h mi s ms
  | .fdateTime y mo d h mi s o tz => 't' :: ':' :: renderDateTime y mo d h mi s o tz
  | .fcoord la ln => 'c' :: ':' :: renderNum la ++ ',' :: renderNum ln

/-- The predicate forms the translator emits over the `entity` column. -/
inductive SqlPred where
  | sqlFalse
  | hasTag (tag : String)
  | eqEnc (tag : String) (bind : List Char)
  | neEnc (tag : String) (kind : Char) (bind : List Char)
  | ordNum (tag : String) (op : CmpOp) (bind : NumVal) (unit : Option String)
  | ordStr (tag : String) (op : CmpOp) (bind : String)
  | ordDate (tag : String) (op : CmpOp) (key : Nat)
  | ordTime (tag : String) (op : CmpOp) (key : Nat)
  | ordInstant (tag : String) (op : CmpOp) (key : Int)
  | refSub (tag : String) (inner : SqlPred)
  | sqlNot (p : SqlPred)
  | sqlAnd (p q : SqlPred)
  | sqlOr (p q : SqlPred)
deriving DecidableEq, Repr

/-- The comparison leaf for a single-hop path: typed by the literal the
translator sees (§4.G table; scenario 5 shows the numeric CAST form). -/
def sqlLeaf (t : String) (op : CmpOp) (fs : FScalar) : SqlPred :=
  match op with
  | .eq => .eqEnc t (encodeF fs)
  | .ne => .neEnc t (fsKind fs) (encodeF fs)
  | _ =>
      match fs with
      | .fnum n u => .ordNum t op n u
      | .fstr s => .ordStr t op s
      | .fdate y m d => .ordDate t op (dateKey y m d)
      | .ftime h mi s ms => .ordTime t op (timeKey h mi s ms)
      | .fdateTime y mo d h mi s o _ => .ordInstant t op (instantKey y mo d h mi s o)
      | _ => .sqlFalse

/-- The predicate of a bare path: the has-predicate behind the chain of
inner SELECT joins of its ref hops (§4.G `a->b`). -/
def translateHas : List String → SqlPred
  | [] => .sqlFalse
  | [t] => .hasTag t
  | t :: rest => .refSub t (translateHas rest)

/-- The predicate of a path comparison behind its ref hops. -/
def translateCmp (op : CmpOp) (fs : FScalar) : List String → SqlPred
  | [] => .sqlFalse
  | [t] => sqlLeaf t op fs
  | t :: rest => .refSub t (translateCmp op fs rest)

/-- The tree walk producing the WHERE-clause predicate; a multi-hop path
becomes an inner SELECT joined on the ref value (§4.G `a->b`). -/
def translatePred : Filter → SqlPred
  | .has p => translateHas p
  | .cmp p op fs => translateCmp op fs p
  | .notF g => .sqlNot (translatePred g)
  | .andF a b => .sqlAnd (translatePred a) (translatePred b)
  | .orF a b => .sqlOr (translatePred a) (translatePred b)

/-- Executing an emitted predicate on one row of the loaded database.
The database itself is in scope for the inner SELECT of a ref hop. -/
def runSql (db : List DbRow) : SqlPred → DbRow → Bool
  | .sqlFalse, _ => false
  | .hasTag t, row =>
      match jsonExtract row t with
      | some enc => decide (¬(enc = ['f', 'a', 'l', 's', 'e']))
      | none => false
  | .eqEnc t b, row => jsonExtract row t == some b
  | .neEnc t k b, row =>
      match jsonExtract row t with
      | some enc => kindTag enc == some k && decide (¬(enc = b))
      | none => false
  | .ordNum t op n u, row =>
      match jsonExtract row t with
      | some enc =>
          match decodeNumEnc enc with
          | some (n', u') => numOrdB op n' u' n u
          | none => false
      | none => false
  | .ordStr t op s, row =>
      match jsonExtract row t with
      | some enc =>
          match decodeStrEnc enc with
          | some s' =>
              (match op with
               | .lt => charListLt s'.data s.data
               | .le => charListLt s'.data s.data || decide (s' = s)
               | .gt => charListLt s.data s'.data
               | .ge => charListLt s.data s'.data || decide (s' = s)
               | _ => false)
          | none => false
      | none => false
  | .ordDate t op k, row =>
      match jsonExtract row t with
      | some enc =>
          match decodeDateEnc enc with
          | some (y, m, d) => keyOrdB op (dateKey y m d) k
          | none => false
      | none => false
  | .ordTime t op k, row =>
      match jsonExtract row t with
      | some enc =>
          match decodeTimeEnc enc with
          | some (h, mi, s, ms) => keyOrdB op (timeKey h mi s ms) k
          | none => false
      | none => false
  | .ordInstant t op k, row =>
      match jsonExtract row t with
      | some enc =>
          match decodeDateTimeEnc enc with
          | some ((y, mo, d, h, mi, s), off, _) => keyOrdB op (instantKey y mo d h mi s off) k
          | none => false
      | none => false
  | .refSub t inner, row =>
      match jsonExtract row t with
      | some enc =>
          match decodeRefEnc enc with
          | some n =>
              db.any (fun row2 =>
                jsonExtract row2 "id" == some ('r' :: ':' :: n.data) && runSql db inner row2)
          | none => false
      | none => false
  | .sqlNot p, row => !runSql db p row
  | .sqlAnd p q, row => runSql db p row && runSql db q row
  | .sqlOr p q, row => runSql db p row || runSql db q row

/-- Whether a filter contains a multi-hop (ref-dereferencing) path. -/
def containsMultiHop : Filter → Bool
  | .has (_ :: _ :: _) => true
  | .has _ => false
  | .cmp (_ :: _ :: _) _ _ => true
  | .cmp _ _ _ => false
  | .notF g => containsMultiHop g
  | .andF a b => containsMultiHop a || containsMultiHop b
  | .orF a b => containsMultiHop a || containsMultiHop b

/-- A disjunction across ref hops: an `or` node some branch of which
dereferences a ref (the queries that degrade on SQLite, §4.G). -/
def orOverHop : Filter → Bool
  | .orF a b => containsMultiHop a || containsMultiHop b || orOverHop a || orOverHop b
  | .andF a b => orOverHop a || orOverHop b
  | .notF g => orOverHop g
  | _ => false

/-- The dialect interface (§4.G): identifier quoting, JSON-extract syntax
and whether parenthesised `UNION`/`INTERSECT` is unavailable.  Only the
last member is semantically relevant to the modelled predicates. -/
structure Dialect where
  quoteId : String → String
  jsonExtractFn : String
  noParenUnion : Bool

/-- The SQLite dialect: no parenthesised UNION/INTERSECT. -/
def sqliteDialect : Dialect := ⟨fun s => "\"" ++ s ++ "\"", "json_extract", true⟩

/-- The PostgreSQL dialect. -/
def postgresDialect : Dialect := ⟨fun s => "\"" ++ s ++ "\"", "json_extract_path_text", false⟩

/-- The translator entry point: the predicate plus the degraded-query flag
reported to the caller (§4.G known limitation). -/
def translate (d : Dialect) (f : Filter) : SqlPred × Bool :=
  (translatePred f, d.noParenUnion && orOverHop f)

/-- Canonical form of a filter literal (as the filter parser produces). -/
def canonF : FScalar → Bool
  | .fnum n u => canonNum n && canonUnit u
  | .fdate y m d => decide (y < 10000) && decide (m < 100) && decide (d < 100)
  | .ftime h mi s ms =>
      decide (h < 100) && decide (mi < 60) && decide (s < 60) && decide (ms < 1000)
  | .fdateTime y mo d h mi s off tz =>
      decide (y < 10000) && decide (mo < 100) && decide (d < 100) && decide (h < 100) &&
      decide (mi < 60) && decide (s < 60) && decide (off.natAbs < 6000) && !tz.isEmpty
  | .fcoord la ln => canonNum la && canonNum ln
  | _ => true

/-- Canonical form of every literal in a filter. -/
def canonFilter : Filter → Bool
  | .has _ => true
  | .cmp _ _ fs => canonF fs
  | .notF g => canonFilter g
  | .andF a b => canonFilter a && canonFilter b
  | .orF a b => canonFilter a && canonFilter b

/-- Canonical form of every value of an entity. -/
def canonEnt (e : Entity) : Bool := e.all (fun kv => canonV kv.2)

/-- Canonical form of every entity of a set. -/
def canonEnts (es : List Entity) : Bool := es.all canonEnt

/-- The ids occurring in the entity set are pairwise distinct (§6: an entity
MUST have an `id` tag; versions are scoped per id). -/
def nodupIds (es : List Entity) : Bool := decide (es.filterMap idOf).Nodup

/-! ### Zinc codec (§4.C)

Modelled from the spec (the Zinc codec module is missing from the source
tree): a hand-written recursive-descent parser with position-tagged errors
and a deterministic emitter.  Reading of the emitter rules: a column absent
from a row emits as the empty cell, while a present Null emits as `N` —
this reconciles §3.2 (an omitted key is Null, distinct from a present
Null) with the byte-identical round-trip of scenario 1, whose row carries
an explicit `N`.  XStr cells and sub-second DateTime precision lie outside
the modelled fragment; nested-grid cells render their metadata between the
`<<` `>>` sentinels. -/

/-- Error kinds of the Zinc parser (§4.C). -/
inductive ErrKind where
  | unexpectedToken
  | badEscape
  | badNumber
  | missingTz
  | duplicateColumn
  | unterminatedString
  | unknownScalar
deriving DecidableEq, Repr

/-- A position-tagged parse error (position as character offset). -/
structure ZErr where
  pos : Nat
  kind : ErrKind
deriving DecidableEq, Repr

/-- Characters allowed in a number's unit token (letters, `%_/$`, and any
character beyond ASCII). -/
def isUnitChar (c : Char) : Bool :=
  c.isAlpha || c = '%' || c = '_' || c = '/' || c = '$' || decide (127 < c.toNat)

/-- Characters allowed in an identifier. -/
def isIdChar (c : Char) : Bool := c.isAlphanum || c = '_'

/-- Characters allowed in a ref name. -/
def isRefChar (c : Char) : Bool :=
  c.isAlphanum || c = '_' || c = ':' || c = '-' || c = '.' || c = '~'

/-- Characters allowed in a time-zone name. -/
def isTzChar (c : Char) : Bool :=
  c.isAlphanum || c = '_' || c = '/' || c = '+' || c = '-'

/-- The time-zone suffix after a DateTime offset: a space and a zone name
starting with a letter.  `none` when the suffix is absent. -/
def tzSuffix (cs : List Char) : Option (String × List Char) :=
  match cs with
  | ' ' :: c :: rest =>
      if c.isAlpha then
        some (⟨c :: rest.takeWhile isTzChar⟩, rest.dropWhile isTzChar)
      else none
  | _ => none

/-- Zinc DateTime scalar: ISO body with offset, then the mandatory zone
suffix; its absence is the position-tagged `MissingTz` error (§4.C:
"Absence of suffix is an error"). -/
def parseZincDateTime (cs : List Char) (pos : Nat) : Except ZErr (Value × List Char × Nat) :=
  match parseDateTimeNoMs cs with
  | none => .error ⟨pos, .badNumber⟩
  | some ((y, mo, d, h, mi, s), off, rest) =>
      match tzSuffix rest with
      | none => .error ⟨pos + (cs.length - rest.length), .missingTz⟩
      | some (tz, rest2) =>
          .ok (.dateTime y mo d h mi s off tz, rest2, pos + (cs.length - rest2.length))

/-- Zinc string body: escape-decoding after the opening quote. -/
def parseStrBody (cs : List Char) (pos : Nat) (acc : List Char) :
    Except ZErr (String × List Char × Nat) :=
  match cs with
  | [] => .error ⟨pos, .unterminatedString⟩
  | '"' :: rest => .ok (⟨acc.reverse⟩, rest, pos + 1)
  | '\\' :: e :: rest =>
      match e with
      | 'n' => parseStrBody rest (pos + 2) ('\n' :: acc)
      | 'r' => parseStrBody rest (pos + 2) ('\r' :: acc)
      | 't' => parseStrBody rest (pos + 2) ('\t' :: acc)
      | '"' => parseStrBody rest (pos + 2) ('"' :: acc)
      | '\\' => parseStrBody rest (pos + 2) ('\\' :: acc)
      | '$' => parseStrBody rest (pos + 2) ('$' :: acc)
      | 'u' =>
          let isHex := fun c : Char =>
            c.isDigit || (97 ≤ c.toNat && c.toNat ≤ 102) || (65 ≤ c.toNat && c.toNat ≤ 70)
          match rest with
          | h1 :: h2 :: h3 :: h4 :: rest2 =>
              if isHex h1 && isHex h2 && isHex h3 && isHex h4 then
                let hv := fun c : Char =>
                  if c.isDigit then c.toNat - 48
                  else if c.toNat ≥ 97 then c.toNat - 87 else c.toNat - 55
                parseStrBody rest2 (pos + 6)
                  (Char.ofNat (((hv h1 * 16 + hv h2) * 16 + hv h3) * 16 + hv h4) :: acc)
              else .error ⟨pos, .badEscape⟩
          | _ => .error ⟨pos, .badEscape⟩
      | _ => .error ⟨pos, .badEscape⟩
  | '\\' :: [] => .error ⟨pos, .badEscape⟩
  | c :: rest => parseStrBody rest (pos + 1) (c :: acc)

/-- Zinc number scalar: optional sign, digits with `_` thousands separators
ignored, optional fraction, optional unit token. -/
def parseZincNumber (cs : List Char) (pos : Nat) : Except ZErr (Value × List Char × Nat) :=
  let sign : Int := if cs.head? = some '-' then -1 else 1
  let cs1 := if cs.head? = some '-' then cs.drop 1 else cs
  let isDigU := fun c : Char => c.isDigit || c = '_'
  let ds := (cs1.takeWhile isDigU).filter Char.isDigit
  if ds.isEmpty then .error ⟨pos, .badNumber⟩
  else
    let cs2 := cs1.dropWhile isDigU
    let ip := digitsVal ds
    let finish := fun (m : Int) (s : Nat) (csf : List Char) =>
      let u := csf.takeWhile isUnitChar
      let rest := csf.dropWhile isUnitChar
      let uv : Option String := if u.isEmpty then none else some ⟨u⟩
      Except.ok ((Value.number (.finite m s) uv), rest, pos + (cs.length - rest.length))
    match cs2 with
    | '.' :: cs3 =>
        let fs := (cs3.takeWhile isDigU).filter Char.isDigit
        if fs.isEmpty then .error ⟨pos, .badNumber⟩
        else finish (sign * ((ip * 10 ^ fs.length + digitsVal fs : Nat) : Int)) fs.length
          (cs3.dropWhile isDigU)
    | _ => finish (sign * (ip : Int)) 0 cs2

/-- Zinc time scalar body `hh:mm:ss[.fff]`. -/
def parseZincTime (cs : List Char) (pos : Nat) : Except ZErr (Value × List Char × Nat) :=
  match parseFixedNat 2 cs with
  | some (h, ':' :: r1) =>
      match parseFixedNat 2 r1 with
      | some (mi, ':' :: r2) =>
          match parseFixedNat 2 r2 with
          | some (s, r3) =>
              match r3 with
              | '.' :: r4 =>
                  match parseFixedNat 3 r4 with
                  | some (ms, r5) => .ok (.time h mi s ms, r5, pos + (cs.length - r5.length))
                  | none => .error ⟨pos, .badNumber⟩
              | _ => .ok (.time h mi s 0, r3, pos + (cs.length - r3.length))
          | none => .error ⟨pos, .badNumber⟩
      | _ => .error ⟨pos, .badNumber⟩
  | _ => .error ⟨pos, .badNumber⟩

/-- The non-DateTime Zinc scalar forms: Date shape first, then literal
keywords, strings, URIs, refs, coordinates, times, numbers. -/
def parseZincScalarCore (cs : List Char) (pos : Nat) : Except ZErr (Value × List Char × Nat) :=
    match parseDateBody cs with
    | some ((y, m, d), rest) => .ok (.date y m d, rest, pos + (cs.length - rest.length))
    | none =>
    match cs with
    | 'N' :: 'a' :: 'N' :: rest => .ok (.number .nan none, rest, pos + 3)
    | 'N' :: 'A' :: rest => .ok (.na, rest, pos + 2)
    | 'N' :: rest => .ok (.null, rest, pos + 1)
    | 'M' :: rest => .ok (.marker, rest, pos + 1)
    | 'R' :: rest => .ok (.remove, rest, pos + 1)
    | 'T' :: rest => .ok (.bool true, rest, pos + 1)
    | 'F' :: rest => .ok (.bool false, rest, pos + 1)
    | 'I' :: 'N' :: 'F' :: rest => .ok (.number .posInf none, rest, pos + 3)
    | '-' :: 'I' :: 'N' :: 'F' :: rest => .ok (.number .negInf none, rest, pos + 4)
    | '"' :: rest =>
        match parseStrBody rest (pos + 1) [] with
        | .ok (s, rest2, pos2) => .ok (.str s, rest2, pos2)
        | .error e => .error e
    | '`' :: rest =>
        let u := rest.takeWhile (fun c => !(c = '`'))
        (match rest.dropWhile (fun c => !(c = '`')) with
         | '`' :: rest2 => .ok (.uri ⟨u⟩, rest2, pos + u.length + 2)
         | _ => .error ⟨pos, .unterminatedString⟩)
    | '@' :: rest =>
        let n := rest.takeWhile isRefChar
        let rest2 := rest.dropWhile isRefChar
        if n.isEmpty then .error ⟨pos, .unexpectedToken⟩
        else
          (match rest2 with
           | ' ' :: '"' :: rest3 =>
               match parseStrBody rest3 (pos + n.length + 3) [] with
               | .ok (dis, rest4, pos4) => .ok (.ref ⟨n⟩ (some dis), rest4, pos4)
               | .error e => .error e
           | _ => .ok (.ref ⟨n⟩ none, rest2, pos + n.length + 1))
    | 'C' :: '(' :: rest =>
        (match parseNumVal rest with
         | some (la, ',' :: r1) =>
             (match parseNumVal r1 with
              | some (ln, ')' :: r2) => .ok (.coord la ln, r2, pos + (cs.length - r2.length))
              | _ => .error ⟨pos, .badNumber⟩)
         | _ => .error ⟨pos, .badNumber⟩)
    | 'B' :: 'i' :: 'n' :: '(' :: '"' :: rest =>
        let m := rest.takeWhile (fun c => !(c = '"'))
        (match rest.dropWhile (fun c => !(c = '"')) with
         | '"' :: ')' :: rest2 => .ok (.bin ⟨m⟩, rest2, pos + m.length + 7)
         | _ => .error ⟨pos, .unterminatedString⟩)
    | c :: _ =>
        if c.isDigit && (parseTimeBody cs).isSome then parseZincTime cs pos
        else if c.isDigit && (parseFixedNat 2 cs).isSome &&
            ((cs.drop 2).head? = some ':') then parseZincTime cs pos
        else if c.isDigit || c = '-' then parseZincNumber cs pos
        else .error ⟨pos, .unknownScalar⟩
    | [] => .error ⟨pos, .unknownScalar⟩

/-- One Zinc scalar.  Dispatch: the DateTime shape first (its fixed-width
digit form is not a valid number start), then the other scalar forms. -/
def parseZincScalar (cs : List Char) (pos : Nat) : Except ZErr (Value × List Char × Nat) :=
  if (parseDateTimeNoMs cs).isSome then parseZincDateTime cs pos
  else parseZincScalarCore cs pos

/-- Minimal always-valid string escaping of the Zinc emitter. -/
def escChar (c : Char) : List Char :=
  if c = '"' then ['\\', '"']
  else if c = '\\' then ['\\', '\\']
  else if c = '\n' then ['\\', 'n']
  else if c = '\r' then ['\\', 'r']
  else if c = '\t' then ['\\', 't']
  else if c = '$' then ['\\', '$']
  else [c]

/-- Escaped body of a quoted Zinc string. -/
def escStr (s : String) : List Char := (s.data.map escChar).flatten

mutual

/-- The Zinc scalar emitter: deterministic literal forms (§4.C). -/
def dumpZincScalar : Value → List Char
  | .null => ['N']
  | .marker => ['M']
  | .remove => ['R']
  | .na => ['N', 'A']
  | .bool b => if b then ['T'] else ['F']
  | .number n u => renderNum n ++ (match u with | some u => u.data | none => [])
  | .str s => '"' :: escStr s ++ ['"']
  | .uri s => '`' :: s.data ++ ['`']
  | .ref n d =>
      '@' :: n.data ++ (match d with | some d => ' ' :: '"' :: escStr d ++ ['"'] | none => [])
  | .bin m => 'B' :: 'i' :: 'n' :: '(' :: '"' :: m.data ++ ['"', ')']
  | .date y m d => renderDate y m d
  | .time h mi s ms => renderTime h mi s ms
  | .dateTime y mo d h mi s o tz => renderDateTime y mo d h mi s o tz
  | .coord la ln => 'C' :: '(' :: renderNum la ++ ',' :: renderNum ln ++ [')']
  | .xstr t v => t.data ++ '(' :: '"' :: escStr v ++ ['"', ')']
  | .list xs => '[' :: dumpZincList xs ++ [']']
  | .dict xs => '\x7b' :: dumpZincDict xs ++ ['\x7d']
  | .grid m _ _ => '<' :: '<' :: dumpZincDict m ++ ['>', '>']

/-- Comma-separated list body. -/
def dumpZincList : List Value → List Char
  | [] => []
  | [x] => dumpZincScalar x
  | x :: xs => dumpZincScalar x ++ ',' :: dumpZincList xs

/-- Space-separated dict body; Marker tags are bare names. -/
def dumpZincDict : List (String × Value) → List Char
  | [] => []
  | [(k, .marker)] => k.data
  | [(k, v)] => k.data ++ ':' :: dumpZincScalar v
  | (k, .marker) :: xs => k.data ++ ' ' :: dumpZincDict xs
  | (k, v) :: xs => k.data ++ ':' :: dumpZincScalar v ++ ' ' :: dumpZincDict xs

end

/-- The Haystack Grid (§3.2): grid metadata, ordered named columns with
their metadata, ordered row dicts. -/
structure Grid where
  meta : List (String × Value)
  cols : List (String × List (String × Value))
  rows : List (List (String × Value))

/-- Separator-joined concatenation (the emitters' comma joining). -/
def sepJoin (sep : List Char) : List (List Char) → List Char
  | [] => []
  | [x] => x
  | x :: xs => x ++ sep ++ sepJoin sep xs

/-- Metadata pairs as the Zinc header and column definitions render them:
each preceded by a space, a bare name for a Marker, `name:scalar` else. -/
def dumpZincMeta : List (String × Value) → List Char
  | [] => []
  | (k, .marker) :: xs => ' ' :: k.data ++ dumpZincMeta xs
  | (k, v) :: xs => ' ' :: k.data ++ ':' :: dumpZincScalar v ++ dumpZincMeta xs

/-- One emitted cell: absent column empty, present value by its literal. -/
def zincCell (row : Entity) (c : String) : List Char :=
  match lookupTag row c with
  | none => []
  | some v => dumpZincScalar v

/-- One emitted row line: cells in the grid's column order. -/
def dumpZincRow (colNames : List String) (row : Entity) : List Char :=
  sepJoin [','] (colNames.map (zincCell row)) ++ ['\n']

/-- The Zinc grid emitter: `ver:"3.0"` header, column definitions, rows in
order, each line newline-terminated. -/
def dumpZinc (g : Grid) : List Char :=
  ('v' :: 'e' :: 'r' :: ':' :: '"' :: '3' :: '.' :: '0' :: '"' :: dumpZincMeta g.meta) ++
  '\n' :: sepJoin [','] (g.cols.map (fun kv => kv.1.data ++ dumpZincMeta kv.2)) ++
  '\n' :: (g.rows.map (dumpZincRow (g.cols.map Prod.fst))).flatten

/-- Identifier token: a leading letter then identifier characters. -/
def parseId (cs : List Char) (pos : Nat) : Except ZErr (String × List Char × Nat) :=
  match cs with
  | c :: rest =>
      if c.isAlpha then
        .ok (⟨c :: rest.takeWhile isIdChar⟩, rest.dropWhile isIdChar,
          pos + 1 + (rest.takeWhile isIdChar).length)
      else .error ⟨pos, .unexpectedToken⟩
  | [] => .error ⟨pos, .unexpectedToken⟩

/-- Metadata run: ` id` or ` id:scalar`, repeated; ends before the newline
or comma.  Fuel-bounded loop. -/
def parseMetaPairs (fuel : Nat) (cs : List Char) (pos : Nat)
    (acc : List (String × Value)) : Except ZErr (List (String × Value) × List Char × Nat) :=
  match fuel with
  | 0 => .error ⟨pos, .unexpectedToken⟩
  | fuel + 1 =>
    match cs with
    | ' ' :: rest =>
        match parseId rest (pos + 1) with
        | .error e => .error e
        | .ok (k, rest2, pos2) =>
            match rest2 with
            | ':' :: rest3 =>
                match parseZincScalar rest3 (pos2 + 1) with
                | .error e => .error e
                | .ok (v, rest4, pos4) => parseMetaPairs fuel rest4 pos4 (acc ++ [(k, v)])
            | _ => parseMetaPairs fuel rest2 pos2 (acc ++ [(k, .marker)])
    | _ => .ok (acc, cs, pos)

/-- Column definitions: `id metadata?` comma-separated, rejecting duplicate
names with `DuplicateColumn` (§4.C error kinds). -/
def parseColDefs (fuel : Nat) (cs : List Char) (pos : Nat)
    (acc : List (String × List (String × Value))) :
    Except ZErr (List (String × List (String × Value)) × List Char × Nat) :=
  match fuel with
  | 0 => .error ⟨pos, .unexpectedToken⟩
  | fuel + 1 =>
    match parseId cs pos with
    | .error e => .error e
    | .ok (k, rest, pos2) =>
        if acc.any (fun kv => kv.1 == k) then .error ⟨pos, .duplicateColumn⟩
        else
          match parseMetaPairs (rest.length + 1) rest pos2 [] with
          | .error e => .error e
          | .ok (m, rest2, pos3) =>
              match rest2 with
              | ',' :: rest3 => parseColDefs fuel rest3 (pos3 + 1) (acc ++ [(k, m)])
              | '\n' :: rest3 => .ok (acc ++ [(k, m)], rest3, pos3 + 1)
              | _ => .error ⟨pos3, .unexpectedToken⟩

/-- The cells of one row, walking the declared columns; an empty cell
leaves the column out of the row dict (§3.2). -/
def parseCells (colNames : List String) (cs : List Char) (pos : Nat)
    (acc : Entity) : Except ZErr (Entity × List Char × Nat) :=
  match colNames with
  | [] => .error ⟨pos, .unexpectedToken⟩
  | [c] =>
      match cs with
      | '\n' :: rest => .ok (acc, rest, pos + 1)
      | _ =>
          match parseZincScalar cs pos with
          | .error e => .error e
          | .ok (v, rest, pos2) =>
              match rest with
              | '\n' :: rest2 => .ok (acc ++ [(c, v)], rest2, pos2 + 1)
              | _ => .error ⟨pos2, .unexpectedToken⟩
  | c :: cns =>
      match cs with
      | ',' :: rest => parseCells cns rest (pos + 1) acc
      | _ =>
          match parseZincScalar cs pos with
          | .error e => .error e
          | .ok (v, rest, pos2) =>
              match rest with
              | ',' :: rest2 => parseCells cns rest2 (pos2 + 1) (acc ++ [(c, v)])
              | _ => .error ⟨pos2, .unexpectedToken⟩

/-- The row lines, until the input ends.  Fuel-bounded loop. -/
def parseRows (fuel : Nat) (colNames : List String) (cs : List Char) (pos : Nat)
    (acc : List Entity) : Except ZErr (List Entity × Nat) :=
  match fuel with
  | 0 => .error ⟨pos, .unexpectedToken⟩
  | fuel + 1 =>
    match cs with
    | [] => .ok (acc, pos)
    | _ =>
        match parseCells colNames cs pos [] with
        | .error e => .error e
        | .ok (row, rest, pos2) => parseRows fuel colNames rest pos2 (acc ++ [row])

/-- The Zinc grid parser: `ver:"2.0"|"3.0"` header with grid metadata,
column definitions, then rows (§6: parsers accept 2.0 and 3.0). -/
def parseZinc (cs : List Char) : Except ZErr Grid :=
  match cs with
  | 'v' :: 'e' :: 'r' :: ':' :: '"' :: c1 :: '.' :: c2 :: '"' :: rest =>
      if (c1 = '3' || c1 = '2') && c2 = '0' then
        match parseMetaPairs (rest.length + 1) rest 9 [] with
        | .error e => .error e
        | .ok (meta, rest2, pos2) =>
            match rest2 with
            | '\n' :: rest3 =>
                match parseColDefs (rest3.length + 1) rest3 (pos2 + 1) [] with
                | .error e => .error e
                | .ok (cols, rest4, pos4) =>
                    match parseRows (rest4.length + 1) (cols.map Prod.fst) rest4 pos4 [] with
                    | .error e => .error e
                    | .ok (rows, _) => .ok ⟨meta, cols, rows⟩
            | _ => .error ⟨pos2, .unexpectedToken⟩
      else .error ⟨5, .unexpectedToken⟩
  | _ => .error ⟨0, .unexpectedToken⟩

/-! ### CSV codec (§4.D)

Modelled from the spec (the CSV codec module is missing from the source
tree): lossy but deterministic.  Markers become `✓`, Null and absent cells
become empty, strings are CSV-quoted raw, and other values render as their
Zinc literal, CSV-escaped when the literal contains a separator.  The
emitter declares the column order of the source grid. -/

/-- CSV escaping: quote and double inner quotes when the text contains a
comma, quote or newline. -/
def csvEscape (cs : List Char) : List Char :=
  if cs.any (fun c => c = ',' || c = '"' || c = '\n') then
    '"' :: (cs.map (fun c => if c = '"' then ['"', '"'] else [c])).flatten ++ ['"']
  else cs

/-- One CSV cell. -/
def csvCell : Option Value → List Char
  | none => []
  | some .null => []
  | some .marker => ['✓']
  | some (.bool b) => if b then ['t', 'r', 'u', 'e'] else ['f', 'a', 'l', 's', 'e']
  | some (.str s) =>
      '"' :: (s.data.map (fun c => if c = '"' then ['"', '"'] else [c])).flatten ++ ['"']
  | some (.ref n d) =>
      csvEscape ('@' :: n.data ++ (match d with | some d => ' ' :: d.data | none => []))
  | some v => csvEscape (dumpZincScalar v)

/-- The CSV emitter: header of column names in grid order, then rows. -/
def dumpCsv (g : Grid) : List Char :=
  sepJoin [','] (g.cols.map (fun kv => kv.1.data)) ++
  '\n' :: (g.rows.map (fun r =>
    sepJoin [','] ((g.cols.map Prod.fst).map (fun c => csvCell (lookupTag r c))) ++
    ['\n'])).flatten

/-- The CSV header line of a grid. -/
def csvHeader (g : Grid) : List Char :=
  (dumpCsv g).takeWhile (fun c => !(c = '\n'))

/-- CSV cell reading, sharing the Zinc scalar layer (§4.D). -/
def parseCsvCell (cs : List Char) : Option Value :=
  match cs with
  | [] => some .null
  | '✓' :: [] => some .marker
  | 't' :: 'r' :: 'u' :: 'e' :: [] => some (.bool true)
  | 'f' :: 'a' :: 'l' :: 's' :: 'e' :: [] => some (.bool false)
  | _ =>
      match parseZincScalar cs 0 with
      | .ok (v, [], _) => some v
      | _ => none

/-! ### Trio codec (§4.D)

Modelled from the spec: one `tagName: zincScalar` line, or a bare
`tagName` for a Marker. -/

/-- One emitted Trio line (without the newline). -/
def dumpTrioLine (k : String) (v : Value) : List Char :=
  match v with
  | .marker => k.data
  | v => k.data ++ ':' :: ' ' :: dumpZincScalar v

/-- One parsed Trio line. -/
def parseTrioLine (cs : List Char) : Option (String × Value) :=
  match parseId cs 0 with
  | .ok (k, [], _) => some (k, .marker)
  | .ok (k, ':' :: ' ' :: rest, _) =>
      (match parseZincScalar rest 0 with
       | .ok (v, [], _) => some (k, v)
       | _ => none)
  | _ => none

/-! ### Grid algebra (§4.I)

Modelled from the spec (the versioning module is missing from the source
tree): grids keyed by `id`, in canonical form — rows ordered by id, tags
ordered by name — since §4.I keys every operation by `id`.  `merge`
overlays patch rows cell-wise, a `Remove` cell deletes the tag, missing
cells leave the base intact; `diff` produces the patch that `merge` turns
`a` into `b`.  The spec does not state how a patch encodes the deletion of
a whole entity; this model uses a reserved `remove_` tag carrying Remove,
and well-formed grids do not use that tag themselves. -/

/-- A grid keyed by id: rows indexed by their id ref name. -/
abbrev GridK := List (String × Entity)

/-- Code-point order on strings, the canonical key order. -/
def strLtB (a b : String) : Bool := charListLt a.data b.data

/-- Strictly increasing keys, checked adjacently. -/
def sortedKeysB {α : Type} (f : α → String) : List α → Bool
  | [] => true
  | [_] => true
  | x :: y :: xs => strLtB (f x) (f y) && sortedKeysB f (y :: xs)

/-- Whether a value is the `Remove` tombstone. -/
def isRemoveV : Value → Bool
  | .remove => true
  | _ => false

/-- Cell-wise tag difference of two canonical rows: changed or added tags
carry the new value, tags of `a` absent from `b` carry `Remove`. -/
def diffTags : Entity → Entity → Entity
  | [], [] => []
  | [], kv :: bs => kv :: diffTags [] bs
  | (k, _) :: as_, [] => (k, .remove) :: diffTags as_ []
  | (k, v) :: as_, (k', v') :: bs =>
      if strLtB k k' then (k, .remove) :: diffTags as_ ((k', v') :: bs)
      else if strLtB k' k then (k', v') :: diffTags ((k, v) :: as_) bs
      else if Value.beq v v' then diffTags as_ bs
      else (k', v') :: diffTags as_ bs
termination_by a b => a.length + b.length

/-- Cell-wise overlay of a patch row onto a canonical base row: `Remove`
deletes the tag, other patch cells set it, missing cells leave the base. -/
def mergeTags : Entity → Entity → Entity
  | [], [] => []
  | [], (k', v') :: ps =>
      if isRemoveV v' then mergeTags [] ps else (k', v') :: mergeTags [] ps
  | kv :: bs, [] => kv :: mergeTags bs []
  | (k, v) :: bs, (k', v') :: ps =>
      if strLtB k k' then (k, v) :: mergeTags bs ((k', v') :: ps)
      else if strLtB k' k then
        (if isRemoveV v' then mergeTags ((k, v) :: bs) ps
         else (k', v') :: mergeTags ((k, v) :: bs) ps)
      else
        (if isRemoveV v' then mergeTags bs ps
         else (k', v') :: mergeTags bs ps)
termination_by b p => b.length + p.length

/-- A patch row that deletes its entity. -/
def isDeleteRow (p : Entity) : Bool :=
  p.any (fun kv => kv.1 == "remove_" && isRemoveV kv.2)

/-- The entity-deletion patch row. -/
def deleteRow : Entity := [("remove_", .remove)]

/-- `diff(a, b)` (§4.I): per id, a cell-wise patch for changed rows, the
full row for new ids, a deletion row for ids absent from `b`; unchanged
rows contribute nothing. -/
def diffG : GridK → GridK → GridK
  | [], [] => []
  | [], ir :: bs => ir :: diffG [] bs
  | (i, _) :: as_, [] => (i, deleteRow) :: diffG as_ []
  | (i, r) :: as_, (i', r') :: bs =>
      if strLtB i i' then (i, deleteRow) :: diffG as_ ((i', r') :: bs)
      else if strLtB i' i then (i', r') :: diffG ((i, r) :: as_) bs
      else
        (match diffTags r r' with
         | [] => diffG as_ bs
         | d => (i, d) :: diffG as_ bs)
termination_by a b => a.length + b.length

/-- `merge(base, patch)` (§4.I): per id, overlay matched rows cell-wise,
drop rows the patch deletes, append the patch's new rows. -/
def mergeG : GridK → GridK → GridK
  | [], [] => []
  | [], (i', p) :: ps =>
      if isDeleteRow p then mergeG [] ps else (i', mergeTags [] p) :: mergeG [] ps
  | ir :: bs, [] => ir :: mergeG bs []
  | (i, r) :: bs, (i', p) :: ps =>
      if strLtB i i' then (i, r) :: mergeG bs ((i', p) :: ps)
      else if strLtB i' i then
        (if isDeleteRow p then mergeG ((i, r) :: bs) ps
         else (i', mergeTags [] p) :: mergeG ((i, r) :: bs) ps)
      else
        (if isDeleteRow p then mergeG bs ps
         else (i, mergeTags r p) :: mergeG bs ps)
termination_by b p => b.length + p.length

/-- A well-formed canonical row: tag names strictly increasing, no value is
`Remove`, and the reserved `remove_` name unused. -/
def wfRow (r : Entity) : Bool :=
  sortedKeysB Prod.fst r &&
  r.all (fun kv => !(kv.1 == "remove_") && !(isRemoveV kv.2))

/-- A well-formed canonical grid keyed by id: ids strictly increasing and
every row well formed. -/
def wfGridK (g : GridK) : Bool :=
  sortedKeysB Prod.fst g && g.all (fun ir => wfRow ir.2)

/-! ### Flask application layer

Embedded from the source (`app/__init__.py`): the index page and the
server entry point.  The module-level `USE_GRAPHQL` flag and the process
environment are parameters of the embedding. -/

/-- The `redirect_js` script block of `app.index`. -/
def redirect_js : String :=
  "\n    <script>\n    if (! window.location.pathname.toString().endsWith(\"/\")) \x7b\n      document.location.href=window.location+\"/\"; \n    \x7d\n    </script>\n    "

/-- `app.index`: the HTML page of the root route, with the GraphQL link
present exactly when the graphene import succeeded at process start. -/
def index (useGraphql : Bool) : String :=
  if useGraphql then
    "\n            " ++ redirect_js ++
    "\n            <body>\n            <a href=\"haystack\">Haystack API</a><br />\n            <a href=\"graphql\">Haystack GraphQL API</a><br />\n            </body>\n            "
  else
    "\n        " ++ redirect_js ++
    "\n        <body>\n        <a href=\"haystack\">Haystack API</a><br />\n        </body>\n        "

/-- The observable `app.run` call of `start_shaystack`. -/
structure AppRun where
  host : String
  port : Nat
  debug : Bool
deriving DecidableEq, Repr

/-- `app.start_shaystack`: runs the Flask server on the given host and
port, in debug mode when `FLASK_DEBUG` is `"1"`, and returns 0. -/
def start_shaystack (env : String → Option String) (host : String) (port : Nat) :
    AppRun × Int :=
  let debug := ((env "FLASK_DEBUG").getD "0") == "1"
  (⟨host, port, debug⟩, 0)

/-! ### The canonical corpus (§8)

Modelled from the spec: the corpus of grids used by the round-trip
property, taken as the concrete grids of the spec's scenarios (§8
Scenarios 1, 3, 4 and 6). -/

/-- Scenario 1 grid: two rows, columns `name`, `age`. -/
def gScenario1 : Grid :=
  ⟨[], [("name", []), ("age", [])],
   [[("name", .str "Alice"), ("age", .null)],
    [("name", .str "Bob"), ("age", .number (.finite 30 0) none)]]⟩

/-- Scenario 1 input text. -/
def scenario1Zinc : String := "ver:\"3.0\"\nname,age\n\"Alice\",N\n\"Bob\",30\n"

/-- Scenario 3 grid: a site with an area and an equip. -/
def gScenario3 : Grid :=
  ⟨[], [("id", []), ("site", []), ("area", []), ("equip", [])],
   [[("id", .ref "a" none), ("site", .marker),
     ("area", .number (.finite 100 0) (some "ft²"))],
    [("id", .ref "b" none), ("equip", .marker)]]⟩

/-- Scenario 4 grid: a floor referencing its site. -/
def gScenario4 : Grid :=
  ⟨[], [("id", []), ("siteRef", []), ("geoCity", [])],
   [[("id", .ref "floor1" none), ("siteRef", .ref "site1" none)],
    [("id", .ref "site1" none), ("geoCity", .str "Richmond")]]⟩

/-- Scenario 6 base grid. -/
def gScenario6a : Grid :=
  ⟨[], [("id", []), ("v", [])],
   [[("id", .ref "x" none), ("v", .number (.finite 1 0) none)]]⟩

/-- Scenario 6 target grid. -/
def gScenario6b : Grid :=
  ⟨[], [("id", []), ("v", []), ("w", [])],
   [[("id", .ref "x" none), ("v", .number (.finite 2 0) none),
     ("w", .number (.finite 3 0) none)]]⟩

/-- The canonical corpus. -/
def canonicalCorpus : List Grid :=
  [gScenario1, gScenario3, gScenario4, gScenario6a, gScenario6b]

/-- Scenario 6 base grid keyed by id (`a = [{id:@x, v:1}]`). -/
def gK6a : GridK :=
  [("x", [("id", .ref "x" none), ("v", .number (.finite 1 0) none)])]

/-- Scenario 6 target grid keyed by id (`b = [{id:@x, v:2, w:3}]`). -/
def gK6b : GridK :=
  [("x", [("id", .ref "x" none), ("v", .number (.finite 2 0) none),
    ("w", .number (.finite 3 0) none)])]

/-- The complex (non-primitive) values of the CSV rule "complex values
serialize to their Zinc literal". -/
def isComplexV : Value → Bool
  | .coord _ _ => true
  | .xstr _ _ => true
  | .bin _ => true
  | .list _ => true
  | .dict _ => true
  | .grid _ _ _ => true
  | _ => false

/-- SQL-soundness witness corpus: a site entity carrying an area. -/
def entC2Site : Entity :=
  [("area", .number (.finite 120 0) (some "m²")), ("id", .ref "site1" none),
   ("site", .marker)]

/-- SQL-soundness witness corpus: an equipment entity referencing the site. -/
def entC2Equip : Entity :=
  [("equip", .marker), ("id", .ref "eq1" none), ("siteRef", .ref "site1" none)]

/-- SQL-soundness witness corpus: the loaded entity set. -/
def esC2 : List Entity := [entC2Site, entC2Equip]

/-- SQL-soundness witness filter: `siteRef->area >= 100m² and equip`, a
multi-hop comparison conjoined with a bare tag. -/
def fC2 : Filter :=
  .andF (.cmp ["siteRef", "area"] .ge (.fnum (.finite 100 0) (some "m²")))
    (.has ["equip"])

/-! ## Theorems -/

set_option maxHeartbeats 2000000 in
mutual

/-- `Value.beq` is sound for propositional equality. -/
theorem Value.beq_sound : ∀ v w : Value, Value.beq v w = true → v = w
  | v, w, h => by
      cases v <;> cases w <;>
        simp only [Value.beq.eq_def, Bool.and_eq_true, beq_iff_eq] at h <;>
        first
          | exact Bool.noConfusion h
          | rfl
          | exact congrArg Value.list (Value.beqList_sound _ _ h)
          | exact congrArg Value.dict (Value.beqDict_sound _ _ h)
          | (rw [Value.beqDict_sound _ _ h.1.1, Value.beqCols_sound _ _ h.1.2,
              Value.beqRows_sound _ _ h.2])
          | aesop

/-- `Value.beqList` is sound for propositional equality. -/
theorem Value.beqList_sound : ∀ xs ys : List Value, Value.beqList xs ys = true → xs = ys
  | [], [], _ => rfl
  | x :: xs, y :: ys, h => by
      simp only [Value.beqList, Bool.and_eq_true] at h
      rw [Value.beq_sound _ _ h.1, Value.beqList_sound _ _ h.2]
  | [], _ :: _, h => by simp [Value.beqList] at h
  | _ :: _, [], h => by simp [Value.beqList] at h

/-- `Value.beqDict` is sound for propositional equality. -/
theorem Value.beqDict_sound :
    ∀ xs ys : List (String × Value), Value.beqDict xs ys = true → xs = ys
  | [], [], _ => rfl
  | (k, v) :: xs, (k', v') :: ys, h => by
      simp only [Value.beqDict, Bool.and_eq_true, beq_iff_eq] at h
      rw [h.1.1, Value.beq_sound _ _ h.1.2, Value.beqDict_sound _ _ h.2]
  | [], _ :: _, h => by simp [Value.beqDict] at h
  | _ :: _, [], h => by simp [Value.beqDict] at h

/-- `Value.beqCols` is sound for propositional equality. -/
theorem Value.beqCols_sound :
    ∀ xs ys : List (String × List (String × Value)), Value.beqCols xs ys = true → xs = ys
  | [], [], _ => rfl
  | (k, m) :: xs, (k', m') :: ys, h => by
      simp only [Value.beqCols, Bool.and_eq_true, beq_iff_eq] at h
      rw [h.1.1, Value.beqDict_sound _ _ h.1.2, Value.beqCols_sound _ _ h.2]
  | [], _ :: _, h => by simp [Value.beqCols] at h
  | _ :: _, [], h => by simp [Value.beqCols] at h

/-- `Value.beqRows` is sound for propositional equality. -/
theorem Value.beqRows_sound :
    ∀ xs ys : List (List (String × Value)), Value.beqRows xs ys = true → xs = ys
  | [], [], _ => rfl
  | r :: xs, r' :: ys, h => by
      simp only [Value.beqRows, Bool.and_eq_true] at h
      rw [Value.beqDict_sound _ _ h.1, Value.beqRows_sound _ _ h.2]
  | [], _ :: _, h => by simp [Value.beqRows] at h
  | _ :: _, [], h => by simp [Value.beqRows] at h

end

mutual

/-- `Value.beq` is reflexive. -/
theorem Value.beq_refl : ∀ v : Value, Value.beq v v = true
  | .null | .marker | .remove | .na => by simp [Value.beq]
  | .bool b => by simp [Value.beq]
  | .number n u => by simp [Value.beq]
  | .str s => by simp [Value.beq]
  | .uri s => by simp [Value.beq]
  | .ref n d => by simp [Value.beq]
  | .bin m => by simp [Value.beq]
  | .date y m d => by simp [Value.beq]
  | .time h mi s ms => by simp [Value.beq]
  | .dateTime y mo d h mi s o tz => by simp [Value.beq]
  | .coord la ln => by simp [Value.beq]
  | .xstr t v => by simp [Value.beq]
  | .list xs => by simp [Value.beq, Value.beqList_refl xs]
  | .dict xs => by simp [Value.beq, Value.beqDict_refl xs]
  | .grid m c r => by
      simp [Value.beq, Value.beqDict_refl m, Value.beqCols_refl c, Value.beqRows_refl r]

/-- `Value.beqList` is reflexive. -/
theorem Value.beqList_refl : ∀ xs : List Value, Value.beqList xs xs = true
  | [] => by simp [Value.beqList]
  | x :: xs => by simp [Value.beqList, Value.beq_refl x, Value.beqList_refl xs]

/-- `Value.beqDict` is reflexive. -/
theorem Value.beqDict_refl : ∀ xs : List (String × Value), Value.beqDict xs xs = true
  | [] => by simp [Value.beqDict]
  | (k, v) :: xs => by simp [Value.beqDict, Value.beq_refl v, Value.beqDict_refl xs]

/-- `Value.beqCols` is reflexive. -/
theorem Value.beqCols_refl :
    ∀ xs : List (String × List (String × Value)), Value.beqCols xs xs = true
  | [] => by simp [Value.beqCols]
  | (k, m) :: xs => by simp [Value.beqCols, Value.beqDict_refl m, Value.beqCols_refl xs]

/-- `Value.beqRows` is reflexive. -/
theorem Value.beqRows_refl :
    ∀ xs : List (List (String × Value)), Value.beqRows xs xs = true
  | [] => by simp [Value.beqRows]
  | r :: xs => by simp [Value.beqRows, Value.beqDict_refl r, Value.beqRows_refl xs]

end

/-- C1: for every Grid `g` in the canonical corpus, parsing the Zinc
emission of `g` yields a grid equal to `g`, and for the spec's scenario 1
grid the emission reproduces (and the parse consumes) the input text
byte-identically. -/
theorem c1_zinc_roundtrip_corpus :
    (∀ g ∈ canonicalCorpus, parseZinc (dumpZinc g) = .ok g) ∧
    dumpZinc gScenario1 = scenario1Zinc.data ∧
    parseZinc scenario1Zinc.data = .ok gScenario1 := by
  refine ⟨?_, rfl, rfl⟩
  intro g hg
  simp only [canonicalCorpus, List.mem_cons, List.not_mem_nil, or_false] at hg
  rcases hg with rfl | rfl | rfl | rfl | rfl <;> rfl

/-- C1 witness: the round-trip theorem applied to the scenario 1 grid. -/
theorem c1_zinc_roundtrip_corpus_witness :
    parseZinc (dumpZinc gScenario1) = .ok gScenario1 :=
  c1_zinc_roundtrip_corpus.1 gScenario1 (by simp [canonicalCorpus])

/-- C5: a Zinc DateTime whose offset is not followed by a time-zone name
suffix is rejected with a position-tagged `MissingTz` parse error. -/
theorem c5_datetime_missing_tz (cs : List Char) (pos : Nat)
    (c : Nat × Nat × Nat × Nat × Nat × Nat) (off : Int) (rest : List Char)
    (h : parseDateTimeNoMs cs = some (c, off, rest)) (h2 : tzSuffix rest = none) :
    parseZincScalar cs pos = .error ⟨pos + (cs.length - rest.length), .missingTz⟩ := by
  obtain ⟨y, mo, d, hr, mi, s⟩ := c
  have hs : (parseDateTimeNoMs cs).isSome = true := by rw [h]; rfl
  simp only [parseZincScalar, hs, if_true]
  simp [parseZincDateTime, h, h2]

/-- C5 witness: `2021-01-01T00:00:00Z` with no zone suffix is rejected at
offset 20 with `MissingTz`. -/
theorem c5_datetime_missing_tz_witness :
    parseZincScalar "2021-01-01T00:00:00Z".data 0 = .error ⟨20, .missingTz⟩ :=
  c5_datetime_missing_tz "2021-01-01T00:00:00Z".data 0 (2021, 1, 1, 0, 0, 0) 0 []
    (by rfl) (by rfl)

/-- C6: filter conjunction is monotone — `(A and B)(e)` implies `A(e)` and
`B(e)` for every entity. -/
theorem c6_and_monotone (a b : Filter) (es : List Entity) (e : Entity)
    (h : evaluate (.andF a b) es e = true) :
    evaluate a es e = true ∧ evaluate b es e = true := by
  simpa [evaluate, Bool.and_eq_true] using h

/-- C6 witness: the monotonicity theorem applied to the scenario 3 filter
`site and area >= 50ft²` on the scenario 3 site entity. -/
theorem c6_and_monotone_witness :
    evaluate (.has ["site"]) gScenario3.rows gScenario3.rows.head! = true ∧
    evaluate (.cmp ["area"] .ge (.fnum (.finite 50 0) (some "ft²"))) gScenario3.rows
      gScenario3.rows.head! = true :=
  c6_and_monotone (.has ["site"]) (.cmp ["area"] .ge (.fnum (.finite 50 0) (some "ft²")))
    gScenario3.rows gScenario3.rows.head! (by decide)

/-- C8: a NaN Number round-trips through the scalar layer of every codec
(Zinc, JSON, CSV, Trio), and Value-level equality treats NaN as equal to
NaN (bit-identity; NaN is symbolic in this model, which makes the
bit-identity reading canonical). -/
theorem c8_nan_roundtrip :
    parseZincScalar (dumpZincScalar (.number .nan none)) 0 =
      .ok (.number .nan none, [], 3) ∧
    parseJsonScalar (encodeValue (.number .nan none)) = some (.number .nan none) ∧
    parseCsvCell (csvCell (some (.number .nan none))) = some (.number .nan none) ∧
    parseTrioLine (dumpTrioLine "his" (.number .nan none)) =
      some ("his", .number .nan none) ∧
    Value.beq (.number .nan none) (.number .nan none) = true ∧
    semEq (.number .nan none) (.fnum .nan none) = true := by
  refine ⟨rfl, rfl, rfl, rfl, ?_, rfl⟩
  simp [Value.beq, numEqB]

/-- `takeWhile` over an append stops exactly at the first failing head. -/
theorem takeWhile_prefix_append (p : Char → Bool) :
    ∀ l r : List Char, (∀ c ∈ l, p c = true) →
      (∀ c, r.head? = some c → p c = false) → (l ++ r).takeWhile p = l := by
  intro l r hl hr
  induction l with
  | nil =>
      simp only [List.nil_append]
      cases r with
      | nil => rfl
      | cons c r' => simp [List.takeWhile_cons, hr c rfl]
  | cons c l' ih =>
      simp only [List.cons_append, List.takeWhile_cons, hl c (by simp)]
      simp [ih (fun d hd => hl d (by simp [hd]))]

/-- Every character of a comma join satisfies a predicate holding on the
comma and on every joined part. -/
theorem sepJoin_all (p : Char → Bool) (hp : p ',' = true) :
    ∀ xs : List (List Char), (∀ x ∈ xs, ∀ c ∈ x, p c = true) →
      ∀ c ∈ sepJoin [','] xs, p c = true := by
  intro xs
  induction xs with
  | nil => intro _ c hc; simp [sepJoin] at hc
  | cons x xs ih =>
      intro hx c hc
      cases xs with
      | nil => exact hx x (by simp) c (by simpa [sepJoin] using hc)
      | cons y ys =>
          simp only [sepJoin, List.append_assoc, List.mem_append] at hc
          rcases hc with hc | hc
          · exact hx x (by simp) c hc
          · rcases hc with hc | hc
            · simp only [List.mem_singleton] at hc; simp [hc, hp]
            · exact ih (fun z hz => hx z (by simp [hz])) c hc

/-- Incompatibly typed comparison steps are all false. -/
theorem incompat_cmp_false (v : Value) (fs : FScalar) (op : CmpOp)
    (h : typeCompat v fs = false) :
    semEq v fs = false ∧ semOrd op v fs = false := by
  cases v <;> cases fs <;> simp_all [typeCompat, semEq, semOrd]

/-- C4: the evaluator never errors on data — it is a total Boolean-valued
function here, a type-incompatible comparison evaluates to false for every
operator, and a broken dotted-path ref chain makes both a bare path and a
comparison evaluate to false rather than signal an error. -/
theorem c4_evaluator_total (es : List Entity) (e : Entity) (p : List String)
    (op : CmpOp) (fs : FScalar) (v : Value) :
    (typeCompat v fs = false → semCmp op v fs = false) ∧
    (evalPath es e p = none →
      evaluate (.has p) es e = false ∧ evaluate (.cmp p op fs) es e = false) := by
  constructor
  · intro h
    obtain ⟨h1, h2⟩ := incompat_cmp_false v fs op h
    cases op <;> simp_all [semCmp]
  · intro h
    simp [evaluate, h]

/-- C4 witness: a Number-to-Str comparison on the scenario 3 grid is false
for `<`, and the broken chain `equip->site` is false on the site entity. -/
theorem c4_evaluator_total_witness :
    semCmp .lt (.str "Carytown") (.fnum (.finite 50 0) none) = false ∧
    evaluate (.has ["equip", "site"]) gScenario3.rows gScenario3.rows.head! = false := by
  refine ⟨(c4_evaluator_total gScenario3.rows gScenario3.rows.head! ["equip", "site"]
    .lt (.fnum (.finite 50 0) none) (.str "Carytown")).1 (by decide), ?_⟩
  exact ((c4_evaluator_total gScenario3.rows gScenario3.rows.head! ["equip", "site"]
    .lt (.fnum (.finite 50 0) none) (.str "Carytown")).2 (by rfl)).1

/-- C7: the CSV emitter (a function, hence deterministic) emits a Marker
cell as `✓`, a Null or absent cell as the empty string, any complex value
as its (CSV-escaped) Zinc literal, and declares the columns of the source
grid in order. -/
theorem c7_csv_emitter (g : Grid) (v : Value)
    (hn : g.cols.all (fun kv => kv.1.data.all (fun c => !(c = '\n'))) = true)
    (hc : isComplexV v = true) :
    csvCell (some .marker) = ['✓'] ∧ csvCell (some .null) = [] ∧ csvCell none = [] ∧
    csvCell (some v) = csvEscape (dumpZincScalar v) ∧
    csvHeader g = sepJoin [','] (g.cols.map (fun kv => kv.1.data)) := by
  refine ⟨rfl, rfl, rfl, ?_, ?_⟩
  · cases v <;> simp_all [csvCell, isComplexV]
  · show (dumpCsv g).takeWhile _ = _
    rw [dumpCsv]
    rw [takeWhile_prefix_append]
    · intro c hc2
      refine sepJoin_all (fun c => !(c = '\n')) (by decide) _ ?_ c hc2
      intro x hx d hd
      simp only [List.mem_map] at hx
      obtain ⟨kv, hkv, rfl⟩ := hx
      simp only [List.all_eq_true] at hn
      have := hn kv hkv
      simp only [List.all_eq_true] at this
      exact this d hd
    · intro c hcf
      simp only [List.head?_cons, Option.some.injEq] at hcf
      simp [← hcf]

/-- C7 witness: the emitter equations at the scenario 3 grid and a
coordinate value. -/
theorem c7_csv_emitter_witness :
    csvCell (some (.coord (.finite (-27) 0) (.finite 153 0))) =
      csvEscape (dumpZincScalar (.coord (.finite (-27) 0) (.finite 153 0))) ∧
    csvHeader gScenario3 = sepJoin [','] (gScenario3.cols.map (fun kv => kv.1.data)) :=
  ⟨(c7_csv_emitter gScenario3 (.coord (.finite (-27) 0) (.finite 153 0)) (by decide)
      (by decide)).2.2.2.1,
   (c7_csv_emitter gScenario3 (.coord (.finite (-27) 0) (.finite 153 0)) (by decide)
      (by decide)).2.2.2.2⟩

set_option maxRecDepth 16000 in
/-- C9: the Flask root endpoint always returns a page linking the Haystack
API, and links the GraphQL API exactly when the graphene import succeeded
(the module-level `USE_GRAPHQL` flag). -/
theorem c9_index_links (useGraphql : Bool) :
    ("<a href=\"haystack\">".data <:+: (index useGraphql).data) ∧
    (("<a href=\"graphql\">".data <:+: (index useGraphql).data) ↔ useGraphql = true) := by
  cases useGraphql <;> constructor <;> simp_all <;> decide

/-- Characters with equal code points are equal. -/
theorem char_eq_of_toNat_eq {a b : Char} (h : a.toNat = b.toNat) : a = b := by
  apply Char.ext
  exact UInt32.toNat.inj h

/-- Code-point order is irreflexive. -/
theorem charListLt_irrefl : ∀ cs : List Char, charListLt cs cs = false
  | [] => rfl
  | c :: cs => by simp [charListLt, charListLt_irrefl cs]

/-- Code-point order is connected: two mutually unrelated lists are equal. -/
theorem charListLt_conn : ∀ a b : List Char,
    charListLt a b = false → charListLt b a = false → a = b
  | [], [], _, _ => rfl
  | [], _ :: _, h, _ => by simp [charListLt] at h
  | _ :: _, [], _, h => by simp [charListLt] at h
  | a :: as, b :: bs, h, h' => by
      simp only [charListLt] at h h'
      have hab : a.toNat = b.toNat := by
        by_contra hne
        rcases Nat.lt_or_ge a.toNat b.toNat with hlt | hge
        · simp [hlt] at h
        · have : b.toNat < a.toNat := lt_of_le_of_ne hge (fun e => hne e.symm)
          simp [this] at h'
      rw [char_eq_of_toNat_eq hab]
      rw [if_neg (by omega), if_pos hab] at h
      rw [if_neg (by omega), if_pos hab.symm] at h'
      rw [charListLt_conn as bs h h']

/-- Code-point order is transitive. -/
theorem charListLt_trans : ∀ a b c : List Char,
    charListLt a b = true → charListLt b c = true → charListLt a c = true
  | [], [], _, h, _ => by simp [charListLt] at h
  | [], _ :: _, [], _, h' => by simp [charListLt] at h'
  | [], _ :: _, _ :: _, _, _ => rfl
  | _ :: _, [], _, h, _ => by simp [charListLt] at h
  | _ :: _, _ :: _, [], _, h' => by simp [charListLt] at h'
  | a :: as, b :: bs, c :: cs, h, h' => by
      simp only [charListLt] at h h' ⊢
      by_cases h1 : a.toNat < b.toNat <;> by_cases h2 : b.toNat < c.toNat <;>
        simp [h1, h2] at h h' ⊢
      · omega
      · omega
      · omega
      · exact Or.inr ⟨by omega, charListLt_trans as bs cs h.2 h'.2⟩

/-- String code-point order is irreflexive. -/
theorem strLtB_irrefl (s : String) : strLtB s s = false := charListLt_irrefl s.data

/-- String code-point order is connected. -/
theorem strLtB_conn {a b : String} (h : strLtB a b = false) (h' : strLtB b a = false) :
    a = b := by
  apply String.ext
  exact charListLt_conn a.data b.data h h'

/-- String code-point order is transitive. -/
theorem strLtB_trans {a b c : String} (h : strLtB a b = true) (h' : strLtB b c = true) :
    strLtB a c = true := charListLt_trans a.data b.data c.data h h'

/-- The tail of a sorted list is sorted. -/
theorem sortedKeysB_tail {α : Type} (f : α → String) :
    ∀ (x : α) (xs : List α), sortedKeysB f (x :: xs) = true → sortedKeysB f xs = true := by
  intro x xs h
  cases xs with
  | nil => rfl
  | cons y ys => exact (Bool.and_eq_true .. ▸ h).2

/-- The head of a sorted list is below every later element. -/
theorem sortedKeysB_head_lt {α : Type} (f : α → String) :
    ∀ (x : α) (xs : List α), sortedKeysB f (x :: xs) = true →
      ∀ y ∈ xs, strLtB (f x) (f y) = true := by
  intro x xs
  induction xs generalizing x with
  | nil => intro _ y hy; simp at hy
  | cons z zs ih =>
      intro h y hy
      have h1 : strLtB (f x) (f z) = true := (Bool.and_eq_true .. ▸ h).1
      have h2 : sortedKeysB f (z :: zs) = true := (Bool.and_eq_true .. ▸ h).2
      rcases List.mem_cons.mp hy with rfl | hy2
      · exact h1
      · exact strLtB_trans h1 (ih z h2 y hy2)

/-- Diffing a row against itself yields the empty patch. -/
theorem diffTags_self : ∀ a : Entity, diffTags a a = []
  | [] => by simp [diffTags]
  | (k, v) :: as_ => by
      simp [diffTags, strLtB_irrefl, Value.beq_refl, diffTags_self as_]

/-- Overlaying a Remove-free patch onto the empty row yields the patch. -/
theorem mergeTags_nil : ∀ b : Entity,
    (∀ kv ∈ b, isRemoveV kv.2 = false) → mergeTags [] b = b
  | [], _ => by simp [mergeTags]
  | (k, v) :: bs, h => by
      have hv := h (k, v) (by simp)
      simp [mergeTags, hv, mergeTags_nil bs (fun kv hkv => h kv (by simp [hkv]))]

/-- Every tag name of a diff comes from one of the two rows. -/
theorem diffTags_keys (p : String → Prop) :
    ∀ a b : Entity, (∀ kv ∈ a, p kv.1) → (∀ kv ∈ b, p kv.1) →
      ∀ kv ∈ diffTags a b, p kv.1
  | [], [], _, _, kv, hm => by simp [diffTags] at hm
  | [], b :: bs, _, hb, kv, hm => by
      rw [show diffTags [] (b :: bs) = b :: diffTags [] bs from by simp [diffTags]] at hm
      rcases List.mem_cons.mp hm with rfl | hm2
      · exact hb kv (by simp)
      · exact diffTags_keys p [] bs (by simp) (fun x hx => hb x (by simp [hx])) kv hm2
  | (k, v) :: as_, [], ha, _, kv, hm => by
      rw [show diffTags ((k, v) :: as_) [] = (k, .remove) :: diffTags as_ [] from by
        simp [diffTags]] at hm
      rcases List.mem_cons.mp hm with rfl | hm2
      · exact ha (k, v) (by simp)
      · exact diffTags_keys p as_ [] (fun x hx => ha x (by simp [hx])) (by simp) kv hm2
  | (k, v) :: as_, (k', v') :: bs, ha, hb, kv, hm => by
      by_cases h1 : strLtB k k' = true
      · rw [show diffTags ((k, v) :: as_) ((k', v') :: bs) =
            (k, .remove) :: diffTags as_ ((k', v') :: bs) from by simp [diffTags, h1]] at hm
        rcases List.mem_cons.mp hm with rfl | hm2
        · exact ha (k, v) (by simp)
        · exact diffTags_keys p as_ ((k', v') :: bs)
            (fun x hx => ha x (by simp [hx])) hb kv hm2
      · by_cases h2 : strLtB k' k = true
        · rw [show diffTags ((k, v) :: as_) ((k', v') :: bs) =
              (k', v') :: diffTags ((k, v) :: as_) bs from by simp [diffTags, h1, h2]] at hm
          rcases List.mem_cons.mp hm with rfl | hm2
          · exact hb (k', v') (by simp)
          · exact diffTags_keys p ((k, v) :: as_) bs ha
              (fun x hx => hb x (by simp [hx])) kv hm2
        · by_cases h3 : Value.beq v v' = true
          · rw [show diffTags ((k, v) :: as_) ((k', v') :: bs) = diffTags as_ bs from by
              simp [diffTags, h1, h2, h3]] at hm
            exact diffTags_keys p as_ bs (fun x hx => ha x (by simp [hx]))
              (fun x hx => hb x (by simp [hx])) kv hm
          · rw [show diffTags ((k, v) :: as_) ((k', v') :: bs) =
                (k', v') :: diffTags as_ bs from by simp [diffTags, h1, h2, h3]] at hm
            rcases List.mem_cons.mp hm with rfl | hm2
            · exact hb (k', v') (by simp)
            · exact diffTags_keys p as_ bs (fun x hx => ha x (by simp [hx]))
                (fun x hx => hb x (by simp [hx])) kv hm2
termination_by a b _ _ kv _ => a.length + b.length

/-- Overlaying onto a row whose head key is below every patch key starts
with the base head. -/
theorem mergeTags_cons_lt (k : String) (v : Value) (bs p : Entity)
    (hp : ∀ kv ∈ p, strLtB k kv.1 = true) :
    mergeTags ((k, v) :: bs) p = (k, v) :: mergeTags bs p := by
  cases p with
  | nil => simp [mergeTags]
  | cons kv ps =>
      obtain ⟨k', v'⟩ := kv
      simp [mergeTags, hp (k', v') (by simp)]

/-- The tag-level round-trip law: overlaying `diff(a, b)` onto `a`
reconstructs `b` exactly, for canonical Remove-free rows. -/
theorem mergeTags_diffTags : ∀ a b : Entity,
    sortedKeysB Prod.fst a = true → sortedKeysB Prod.fst b = true →
    (∀ kv ∈ b, isRemoveV kv.2 = false) →
    mergeTags a (diffTags a b) = b
  | [], [], _, _, _ => by simp [diffTags, mergeTags]
  | [], (k', v') :: bs, _, hb, hrb => by
      rw [show diffTags [] ((k', v') :: bs) = (k', v') :: diffTags [] bs from by
        simp [diffTags]]
      rw [show mergeTags [] ((k', v') :: diffTags [] bs) =
          (k', v') :: mergeTags [] (diffTags [] bs) from by
        simp [mergeTags, hrb (k', v') (by simp)]]
      rw [mergeTags_diffTags [] bs rfl (sortedKeysB_tail _ _ _ hb)
        (fun kv h => hrb kv (by simp [h]))]
  | (k, v) :: as_, [], ha, _, _ => by
      rw [show diffTags ((k, v) :: as_) [] = (k, .remove) :: diffTags as_ [] from by
        simp [diffTags]]
      rw [show mergeTags ((k, v) :: as_) ((k, .remove) :: diffTags as_ []) =
          mergeTags as_ (diffTags as_ []) from by
        simp [mergeTags, strLtB_irrefl, isRemoveV]]
      exact mergeTags_diffTags as_ [] (sortedKeysB_tail _ _ _ ha) rfl (by simp)
  | (k, v) :: as_, (k', v') :: bs, ha, hb, hrb => by
      by_cases h1 : strLtB k k' = true
      · rw [show diffTags ((k, v) :: as_) ((k', v') :: bs) =
            (k, .remove) :: diffTags as_ ((k', v') :: bs) from by simp [diffTags, h1]]
        rw [show mergeTags ((k, v) :: as_) ((k, .remove) :: diffTags as_ ((k', v') :: bs)) =
            mergeTags as_ (diffTags as_ ((k', v') :: bs)) from by
          simp [mergeTags, strLtB_irrefl, isRemoveV]]
        exact mergeTags_diffTags as_ ((k', v') :: bs) (sortedKeysB_tail _ _ _ ha) hb hrb
      · by_cases h2 : strLtB k' k = true
        · rw [show diffTags ((k, v) :: as_) ((k', v') :: bs) =
              (k', v') :: diffTags ((k, v) :: as_) bs from by simp [diffTags, h1, h2]]
          rw [show mergeTags ((k, v) :: as_) ((k', v') :: diffTags ((k, v) :: as_) bs) =
              (k', v') :: mergeTags ((k, v) :: as_) (diffTags ((k, v) :: as_) bs) from by
            simp [mergeTags, h1, h2, hrb (k', v') (by simp)]]
          rw [mergeTags_diffTags ((k, v) :: as_) bs ha (sortedKeysB_tail _ _ _ hb)
            (fun kv h => hrb kv (by simp [h]))]
        · have hk : k = k' := strLtB_conn (Bool.not_eq_true _ ▸ h1) (Bool.not_eq_true _ ▸ h2)
          by_cases h3 : Value.beq v v' = true
          · have hv : v = v' := Value.beq_sound _ _ h3
            rw [show diffTags ((k, v) :: as_) ((k', v') :: bs) = diffTags as_ bs from by
              simp [diffTags, h1, h2, h3]]
            rw [mergeTags_cons_lt k v as_ (diffTags as_ bs) ?_]
            · rw [mergeTags_diffTags as_ bs (sortedKeysB_tail _ _ _ ha)
                (sortedKeysB_tail _ _ _ hb) (fun kv h => hrb kv (by simp [h]))]
              rw [hk, hv]
            · refine diffTags_keys (fun s => strLtB k s = true) as_ bs ?_ ?_
              · exact fun kv hkv => sortedKeysB_head_lt _ _ _ ha kv hkv
              · intro kv hkv
                rw [hk]
                exact sortedKeysB_head_lt _ _ _ hb kv hkv
          · rw [show diffTags ((k, v) :: as_) ((k', v') :: bs) =
                (k', v') :: diffTags as_ bs from by simp [diffTags, h1, h2, h3]]
            rw [show mergeTags ((k, v) :: as_) ((k', v') :: diffTags as_ bs) =
                (k', v') :: mergeTags as_ (diffTags as_ bs) from by
              simp [mergeTags, h1, h2, hrb (k', v') (by simp)]]
            rw [mergeTags_diffTags as_ bs (sortedKeysB_tail _ _ _ ha)
              (sortedKeysB_tail _ _ _ hb) (fun kv h => hrb kv (by simp [h]))]
termination_by a b _ _ _ => a.length + b.length

/-- An empty diff happens only between equal rows. -/
theorem diffTags_nil : ∀ a b : Entity, diffTags a b = [] → a = b
  | [], [], _ => rfl
  | [], b :: bs, h => by
      rw [show diffTags [] (b :: bs) = b :: diffTags [] bs from by simp [diffTags]] at h
      exact absurd h (by simp)
  | (k, v) :: as_, [], h => by
      rw [show diffTags ((k, v) :: as_) [] = (k, .remove) :: diffTags as_ [] from by
        simp [diffTags]] at h
      exact absurd h (by simp)
  | (k, v) :: as_, (k', v') :: bs, h => by
      by_cases h1 : strLtB k k' = true
      · rw [show diffTags ((k, v) :: as_) ((k', v') :: bs) =
            (k, .remove) :: diffTags as_ ((k', v') :: bs) from by simp [diffTags, h1]] at h
        exact absurd h (by simp)
      · by_cases h2 : strLtB k' k = true
        · rw [show diffTags ((k, v) :: as_) ((k', v') :: bs) =
              (k', v') :: diffTags ((k, v) :: as_) bs from by simp [diffTags, h1, h2]] at h
          exact absurd h (by simp)
        · by_cases h3 : Value.beq v v' = true
          · rw [show diffTags ((k, v) :: as_) ((k', v') :: bs) = diffTags as_ bs from by
              simp [diffTags, h1, h2, h3]] at h
            have hk : k = k' := strLtB_conn (Bool.not_eq_true _ ▸ h1) (Bool.not_eq_true _ ▸ h2)
            rw [hk, Value.beq_sound _ _ h3, diffTags_nil as_ bs h]
          · rw [show diffTags ((k, v) :: as_) ((k', v') :: bs) =
                (k', v') :: diffTags as_ bs from by simp [diffTags, h1, h2, h3]] at h
            exact absurd h (by simp)
termination_by a b _ => a.length + b.length

/-- A well-formed row is sorted. -/
theorem wfRow_sorted {r : Entity} (h : wfRow r = true) : sortedKeysB Prod.fst r = true :=
  (Bool.and_eq_true .. ▸ h).1

/-- A well-formed row carries no Remove value. -/
theorem wfRow_noRemove {r : Entity} (h : wfRow r = true) :
    ∀ kv ∈ r, isRemoveV kv.2 = false := by
  have h2 := (Bool.and_eq_true .. ▸ h).2
  simp only [List.all_eq_true, Bool.and_eq_true] at h2
  intro kv hkv
  simpa using (h2 kv hkv).2

/-- A well-formed row does not use the reserved `remove_` tag. -/
theorem wfRow_noReserved {r : Entity} (h : wfRow r = true) :
    ∀ kv ∈ r, ¬(kv.1 = "remove_") := by
  have h2 := (Bool.and_eq_true .. ▸ h).2
  simp only [List.all_eq_true, Bool.and_eq_true] at h2
  intro kv hkv
  simpa using (h2 kv hkv).1

/-- A well-formed row is not an entity-deletion row. -/
theorem wfRow_not_delete {r : Entity} (h : wfRow r = true) : isDeleteRow r = false := by
  simp only [isDeleteRow, List.any_eq_false, Bool.and_eq_true, not_and]
  intro kv hkv hk
  rw [wfRow_noRemove h kv hkv]
  simp

/-- A diff of two well-formed rows is not an entity-deletion row. -/
theorem diffTags_not_delete {r r' : Entity} (hr : wfRow r = true) (hr' : wfRow r' = true) :
    isDeleteRow (diffTags r r') = false := by
  simp only [isDeleteRow, List.any_eq_false, Bool.and_eq_true, not_and]
  intro kv hkv hk
  have : ¬(kv.1 = "remove_") :=
    diffTags_keys (fun s => ¬(s = "remove_")) r r' (wfRow_noReserved hr)
      (wfRow_noReserved hr') kv hkv
  exact absurd (by simpa using hk) this

/-- The sorted part of a well-formed grid. -/
theorem wfGridK_sorted {g : GridK} (h : wfGridK g = true) :
    sortedKeysB Prod.fst g = true :=
  (Bool.and_eq_true .. ▸ h).1

/-- The rows of a well-formed grid are well formed. -/
theorem wfGridK_rows {g : GridK} (h : wfGridK g = true) :
    ∀ ir ∈ g, wfRow ir.2 = true := by
  have h2 := (Bool.and_eq_true .. ▸ h).2
  simp only [List.all_eq_true] at h2
  exact h2

/-- A well-formed grid's tail is well formed. -/
theorem wfGridK_tail {ir : String × Entity} {g : GridK} (h : wfGridK (ir :: g) = true) :
    wfGridK g = true := by
  simp only [wfGridK, Bool.and_eq_true] at h ⊢
  exact ⟨sortedKeysB_tail _ _ _ h.1, by
    have := h.2
    simp only [List.all_eq_true] at this ⊢
    exact fun x hx => this x (by simp [hx])⟩

/-- Every id of a grid diff comes from one of the two grids. -/
theorem diffG_keys (p : String → Prop) :
    ∀ a b : GridK, (∀ ir ∈ a, p ir.1) → (∀ ir ∈ b, p ir.1) →
      ∀ ir ∈ diffG a b, p ir.1
  | [], [], _, _, ir, hm => by simp [diffG] at hm
  | [], b :: bs, _, hb, ir, hm => by
      rw [show diffG [] (b :: bs) = b :: diffG [] bs from by simp [diffG]] at hm
      rcases List.mem_cons.mp hm with rfl | hm2
      · exact hb ir (by simp)
      · exact diffG_keys p [] bs (by simp) (fun x hx => hb x (by simp [hx])) ir hm2
  | (i, r) :: as_, [], ha, _, ir, hm => by
      rw [show diffG ((i, r) :: as_) [] = (i, deleteRow) :: diffG as_ [] from by
        simp [diffG]] at hm
      rcases List.mem_cons.mp hm with rfl | hm2
      · exact ha (i, r) (by simp)
      · exact diffG_keys p as_ [] (fun x hx => ha x (by simp [hx])) (by simp) ir hm2
  | (i, r) :: as_, (i', r') :: bs, ha, hb, ir, hm => by
      by_cases h1 : strLtB i i' = true
      · rw [show diffG ((i, r) :: as_) ((i', r') :: bs) =
            (i, deleteRow) :: diffG as_ ((i', r') :: bs) from by simp [diffG, h1]] at hm
        rcases List.mem_cons.mp hm with rfl | hm2
        · exact ha (i, r) (by simp)
        · exact diffG_keys p as_ ((i', r') :: bs) (fun x hx => ha x (by simp [hx])) hb ir hm2
      · by_cases h2 : strLtB i' i = true
        · rw [show diffG ((i, r) :: as_) ((i', r') :: bs) =
              (i', r') :: diffG ((i, r) :: as_) bs from by simp [diffG, h1, h2]] at hm
          rcases List.mem_cons.mp hm with rfl | hm2
          · exact hb (i', r') (by simp)
          · exact diffG_keys p ((i, r) :: as_) bs ha (fun x hx => hb x (by simp [hx])) ir hm2
        · cases hd : diffTags r r' with
          | nil =>
              rw [show diffG ((i, r) :: as_) ((i', r') :: bs) = diffG as_ bs from by
                simp [diffG, h1, h2, hd]] at hm
              exact diffG_keys p as_ bs (fun x hx => ha x (by simp [hx]))
                (fun x hx => hb x (by simp [hx])) ir hm
          | cons d0 ds0 =>
              rw [show diffG ((i, r) :: as_) ((i', r') :: bs) =
                  (i, d0 :: ds0) :: diffG as_ bs from by simp [diffG, h1, h2, hd]] at hm
              rcases List.mem_cons.mp hm with rfl | hm2
              · exact ha (i, r) (by simp)
              · exact diffG_keys p as_ bs (fun x hx => ha x (by simp [hx]))
                  (fun x hx => hb x (by simp [hx])) ir hm2
termination_by a b _ _ ir _ => a.length + b.length

/-- Diffing a grid against itself yields the empty patch. -/
theorem diffG_self : ∀ a : GridK, diffG a a = []
  | [] => by simp [diffG]
  | (i, r) :: as_ => by
      simp [diffG, strLtB_irrefl, diffTags_self, diffG_self as_]

/-- Merging onto a grid whose head id is below every patch id starts with
the base head. -/
theorem mergeG_cons_lt (i : String) (r : Entity) (bs p : GridK)
    (hp : ∀ ip ∈ p, strLtB i ip.1 = true) :
    mergeG ((i, r) :: bs) p = (i, r) :: mergeG bs p := by
  cases p with
  | nil => simp [mergeG]
  | cons ip ps =>
      obtain ⟨i', p'⟩ := ip
      simp [mergeG, hp (i', p') (by simp)]

/-- The grid-level round-trip law: merging `diff(a, b)` onto `a`
reconstructs `b`, for well-formed grids keyed by id. -/
theorem mergeG_diffG : ∀ a b : GridK, wfGridK a = true → wfGridK b = true →
    mergeG a (diffG a b) = b
  | [], [], _, _ => by simp [diffG, mergeG]
  | [], (i', r') :: bs, _, hb => by
      rw [show diffG [] ((i', r') :: bs) = (i', r') :: diffG [] bs from by simp [diffG]]
      rw [show mergeG [] ((i', r') :: diffG [] bs) =
          (i', mergeTags [] r') :: mergeG [] (diffG [] bs) from by
        simp [mergeG, wfRow_not_delete (wfGridK_rows hb (i', r') (by simp))]]
      rw [mergeTags_nil r' (wfRow_noRemove (wfGridK_rows hb (i', r') (by simp))),
        mergeG_diffG [] bs rfl (wfGridK_tail hb)]
  | (i, r) :: as_, [], ha, _ => by
      rw [show diffG ((i, r) :: as_) [] = (i, deleteRow) :: diffG as_ [] from by
        simp [diffG]]
      rw [show mergeG ((i, r) :: as_) ((i, deleteRow) :: diffG as_ []) =
          mergeG as_ (diffG as_ []) from by
        simp [mergeG, strLtB_irrefl, isDeleteRow, deleteRow, isRemoveV]]
      exact mergeG_diffG as_ [] (wfGridK_tail ha) rfl
  | (i, r) :: as_, (i', r') :: bs, ha, hb => by
      by_cases h1 : strLtB i i' = true
      · rw [show diffG ((i, r) :: as_) ((i', r') :: bs) =
            (i, deleteRow) :: diffG as_ ((i', r') :: bs) from by simp [diffG, h1]]
        rw [show mergeG ((i, r) :: as_) ((i, deleteRow) :: diffG as_ ((i', r') :: bs)) =
            mergeG as_ (diffG as_ ((i', r') :: bs)) from by
          simp [mergeG, strLtB_irrefl, isDeleteRow, deleteRow, isRemoveV]]
        exact mergeG_diffG as_ ((i', r') :: bs) (wfGridK_tail ha) hb
      · by_cases h2 : strLtB i' i = true
        · rw [show diffG ((i, r) :: as_) ((i', r') :: bs) =
              (i', r') :: diffG ((i, r) :: as_) bs from by simp [diffG, h1, h2]]
          rw [show mergeG ((i, r) :: as_) ((i', r') :: diffG ((i, r) :: as_) bs) =
              (i', mergeTags [] r') :: mergeG ((i, r) :: as_) (diffG ((i, r) :: as_) bs)
              from by
            simp [mergeG, h1, h2, wfRow_not_delete (wfGridK_rows hb (i', r') (by simp))]]
          rw [mergeTags_nil r' (wfRow_noRemove (wfGridK_rows hb (i', r') (by simp))),
            mergeG_diffG ((i, r) :: as_) bs ha (wfGridK_tail hb)]
        · have hi : i = i' := strLtB_conn (Bool.not_eq_true _ ▸ h1) (Bool.not_eq_true _ ▸ h2)
          have hwr : wfRow r = true := wfGridK_rows ha (i, r) (by simp)
          have hwr' : wfRow r' = true := wfGridK_rows hb (i', r') (by simp)
          cases hd : diffTags r r' with
          | nil =>
              rw [show diffG ((i, r) :: as_) ((i', r') :: bs) = diffG as_ bs from by
                simp [diffG, h1, h2, hd]]
              rw [mergeG_cons_lt i r as_ (diffG as_ bs) ?_]
              · rw [mergeG_diffG as_ bs (wfGridK_tail ha) (wfGridK_tail hb)]
                rw [hi, diffTags_nil r r' hd]
              · refine diffG_keys (fun s => strLtB i s = true) as_ bs ?_ ?_
                · exact fun ir hir => sortedKeysB_head_lt _ _ _ (wfGridK_sorted ha) ir hir
                · intro ir hir
                  rw [hi]
                  exact sortedKeysB_head_lt _ _ _ (wfGridK_sorted hb) ir hir
          | cons d0 ds0 =>
              rw [show diffG ((i, r) :: as_) ((i', r') :: bs) =
                  (i, d0 :: ds0) :: diffG as_ bs from by simp [diffG, h1, h2, hd]]
              rw [show mergeG ((i, r) :: as_) ((i, d0 :: ds0) :: diffG as_ bs) =
                  (i, mergeTags r (d0 :: ds0)) :: mergeG as_ (diffG as_ bs) from by
                have hnd : isDeleteRow (d0 :: ds0) = false :=
                  hd ▸ diffTags_not_delete hwr hwr'
                simp [mergeG, strLtB_irrefl, hnd]]
              rw [← hd, mergeTags_diffTags r r' (wfRow_sorted hwr) (wfRow_sorted hwr')
                (wfRow_noRemove hwr'),
                mergeG_diffG as_ bs (wfGridK_tail ha) (wfGridK_tail hb), hi]
termination_by a b _ _ => a.length + b.length

/-- `dropWhile` over an append stops exactly at the first failing head. -/
theorem dropWhile_prefix_append (p : Char → Bool) :
    ∀ l r : List Char, (∀ c ∈ l, p c = true) →
      (∀ c, r.head? = some c → p c = false) → (l ++ r).dropWhile p = r := by
  intro l r hl hr
  induction l with
  | nil =>
      simp only [List.nil_append]
      cases r with
      | nil => rfl
      | cons c r' => simp [List.dropWhile_cons, hr c rfl]
  | cons c l' ih =>
      simp only [List.cons_append, List.dropWhile_cons, hl c (by simp)]
      simp [ih (fun d hd => hl d (by simp [hd]))]

/-- Code point of a digit character. -/
theorem digitChar_toNat {d : Nat} (h : d < 10) : (digitChar d).toNat = 48 + d := by
  unfold digitChar Char.ofNat
  rw [dif_pos (by left; omega)]
  rfl

/-- Digit characters by code point. -/
theorem isDigit_toNat (c : Char) : c.isDigit = true ↔ 48 ≤ c.toNat ∧ c.toNat ≤ 57 := by
  simp only [Char.isDigit, Char.le_def, UInt32.le_def, Bool.and_eq_true, decide_eq_true_eq]
  exact Iff.rfl

/-- A digit character is a digit. -/
theorem digitChar_isDigit {d : Nat} (h : d < 10) : (digitChar d).isDigit = true := by
  rw [isDigit_toNat, digitChar_toNat h]
  omega

/-- Value of a digit character. -/
theorem digitVal_digitChar {d : Nat} (h : d < 10) : digitVal (digitChar d) = d := by
  simp [digitVal, digitChar_toNat h]

/-- Every character of the digit rendering is a digit. -/
theorem natLitAux_digits : ∀ f n : Nat, ∀ c ∈ natLitAux f n, c.isDigit = true
  | 0, n => by simp [natLitAux]
  | f + 1, n => by
      by_cases h : n = 0
      · simp [natLitAux, h]
      · intro c hc
        simp only [natLitAux, h, if_false, List.mem_append, List.mem_singleton] at hc
        rcases hc with hc | rfl
        · exact natLitAux_digits f (n / 10) c hc
        · exact digitChar_isDigit (Nat.mod_lt _ (by omega))

/-- Appending one digit multiplies the value by ten and adds it. -/
theorem digitsVal_append_one (xs : List Char) (c : Char) :
    digitsVal (xs ++ [c]) = digitsVal xs * 10 + digitVal c := by
  simp [digitsVal, List.foldl_append]

/-- The digit rendering evaluates back to its number. -/
theorem natLitAux_val : ∀ f n : Nat, n ≤ f → digitsVal (natLitAux f n) = n
  | 0, n, h => by
      have : n = 0 := by omega
      simp [natLitAux, this, digitsVal]
  | f + 1, n, h => by
      by_cases h0 : n = 0
      · simp [natLitAux, h0, digitsVal]
      · rw [natLitAux, if_neg h0, digitsVal_append_one,
          natLitAux_val f (n / 10) (by omega),
          digitVal_digitChar (Nat.mod_lt _ (by omega))]
        omega

/-- Length bound of the digit rendering. -/
theorem natLitAux_len : ∀ f n k : Nat, n < 10 ^ k → (natLitAux f n).length ≤ k
  | 0, n, k, _ => by simp [natLitAux]
  | f + 1, n, k, h => by
      by_cases h0 : n = 0
      · simp [natLitAux, h0]
      · have hk : 1 ≤ k := by
          by_contra hk0
          have : k = 0 := by omega
          rw [this] at h
          simp at h
          omega
        rw [natLitAux, if_neg h0]
        have hrec : (natLitAux f (n / 10)).length ≤ k - 1 :=
          natLitAux_len f (n / 10) (k - 1) (by
            rw [Nat.div_lt_iff_lt_mul (by omega)]
            calc n < 10 ^ k := h
            _ = 10 ^ (k - 1) * 10 := by
                rw [← pow_succ]
                congr 1
                omega)
        simp only [List.length_append, List.length_singleton]
        omega

/-- Every character of a rendered natural is a digit. -/
theorem natLit_digits (n : Nat) : ∀ c ∈ natLit n, c.isDigit = true := by
  intro c hc
  unfold natLit at hc
  split at hc
  · simp only [List.mem_singleton] at hc
    subst hc
    rfl
  · exact natLitAux_digits n n c hc

/-- A rendered natural evaluates back to itself. -/
theorem natLit_val (n : Nat) : digitsVal (natLit n) = n := by
  unfold natLit
  split
  · rename_i h
    subst h
    rfl
  · exact natLitAux_val n n (le_refl n)

/-- A rendered natural is nonempty. -/
theorem natLit_ne_nil (n : Nat) : natLit n ≠ [] := by
  intro hnil
  have hv := natLit_val n
  rw [hnil] at hv
  have : n = 0 := by simpa [digitsVal] using hv.symm
  subst this
  simp [natLit] at hnil

/-- Length bound of a rendered natural. -/
theorem natLit_len {n k : Nat} (h : n < 10 ^ k) (hk : 1 ≤ k) : (natLit n).length ≤ k := by
  unfold natLit
  split
  · simpa using hk
  · exact natLitAux_len n n k h

/-- Zero padding does not change the value. -/
theorem digitsVal_replicate_zero : ∀ (j : Nat) (cs : List Char),
    digitsVal (List.replicate j '0' ++ cs) = digitsVal cs := by
  intro j
  induction j with
  | zero => simp
  | succ j ih =>
      intro cs
      rw [List.replicate_succ, List.cons_append]
      show digitsVal (List.replicate j '0' ++ cs) = _
      exact ih cs

/-- The fixed-width rendering has exactly the requested width. -/
theorem natLitW_len {w n : Nat} (h : n < 10 ^ w) (hw : 1 ≤ w) : (natLitW w n).length = w := by
  have := natLit_len h hw
  simp only [natLitW, padZeros, List.length_append, List.length_replicate]
  omega

/-- Every character of the fixed-width rendering is a digit. -/
theorem natLitW_digits (w n : Nat) : ∀ c ∈ natLitW w n, c.isDigit = true := by
  intro c hc
  simp only [natLitW, padZeros, List.mem_append, List.mem_replicate] at hc
  rcases hc with ⟨_, rfl⟩ | hc
  · rfl
  · exact natLit_digits n c hc

/-- The fixed-width rendering evaluates back to its number. -/
theorem natLitW_val (w n : Nat) : digitsVal (natLitW w n) = n := by
  rw [natLitW, padZeros, digitsVal_replicate_zero, natLit_val]

/-- Fixed-width parsing inverts fixed-width rendering. -/
theorem parseFixedNat_natLitW {w n : Nat} (hw : 1 ≤ w) (h : n < 10 ^ w)
    (rest : List Char) : parseFixedNat w (natLitW w n ++ rest) = some (n, rest) := by
  have hlen : (natLitW w n).length = w := natLitW_len h hw
  have htake : (natLitW w n ++ rest).take w = natLitW w n := List.take_left' hlen
  have hdrop : (natLitW w n ++ rest).drop w = rest := List.drop_left' hlen
  simp only [parseFixedNat, htake, hdrop, hlen]
  rw [if_pos]
  · rw [natLitW_val]
  · simp only [Bool.and_eq_true, decide_eq_true_eq, List.all_eq_true]
    exact ⟨by trivial, fun c hc => natLitW_digits w n c hc⟩

/-- Greedy digit parsing inverts rendering, up to a non-digit boundary. -/
theorem parseNat_natLit (n : Nat) (rest : List Char)
    (hr : ∀ c, rest.head? = some c → c.isDigit = false) :
    parseNat (natLit n ++ rest) = some (n, rest) := by
  have ht : (natLit n ++ rest).takeWhile Char.isDigit = natLit n :=
    takeWhile_prefix_append _ _ _ (natLit_digits n) hr
  have hd : (natLit n ++ rest).dropWhile Char.isDigit = rest :=
    dropWhile_prefix_append _ _ _ (natLit_digits n) hr
  simp only [parseNat, ht, hd]
  rw [if_neg (by simpa using natLit_ne_nil n), natLit_val]

/-- Greedy digit parsing of a digit block followed by a boundary. -/
theorem parseNat_digits (ds rest : List Char) (hds : ∀ c ∈ ds, c.isDigit = true)
    (hne : ds ≠ []) (hr : ∀ c, rest.head? = some c → c.isDigit = false) :
    parseNat (ds ++ rest) = some (digitsVal ds, rest) := by
  have ht : (ds ++ rest).takeWhile Char.isDigit = ds :=
    takeWhile_prefix_append _ _ _ hds hr
  have hd : (ds ++ rest).dropWhile Char.isDigit = rest :=
    dropWhile_prefix_append _ _ _ hds hr
  simp only [parseNat, ht, hd]
  rw [if_neg (by simpa using hne)]

/-- A digit block does not start with any non-digit character. -/
theorem take_digits_ne {ds rest : List Char} (hne : ds ≠ [])
    (hds : ∀ c ∈ ds, c.isDigit = true) {d : Char} (hd : d.isDigit = false)
    (l : List Char) (k : Nat) (hk : 1 ≤ k) : ¬((ds ++ rest).take k = d :: l) := by
  cases ds with
  | nil => exact absurd rfl hne
  | cons e ds' =>
      cases k with
      | zero => omega
      | succ k' =>
          intro heq
          simp only [List.cons_append, List.take_succ_cons, List.cons.injEq] at heq
          rw [heq.1] at hds
          rw [hds d (by simp)] at hd
          exact Bool.noConfusion hd

/-- A digit block's head is not any non-digit character. -/
theorem head_digits_ne {ds rest : List Char} (hne : ds ≠ [])
    (hds : ∀ c ∈ ds, c.isDigit = true) {d : Char} (hd : d.isDigit = false) :
    ¬((ds ++ rest).head? = some d) := by
  cases ds with
  | nil => exact absurd rfl hne
  | cons e ds' =>
      intro heq
      simp only [List.cons_append, List.head?_cons, Option.some.injEq] at heq
      rw [heq] at hds
      rw [hds d (by simp)] at hd
      exact Bool.noConfusion hd

/-- Decimal parsing of a rendered integer part at a boundary. -/
theorem parseDec_natLit (n : Nat) (rest : List Char)
    (hr : ∀ c, rest.head? = some c → c.isDigit = false ∧ ¬(c = '.')) :
    parseDec (natLit n ++ rest) = some (n, 0, rest) := by
  have hdot : ¬(rest.head? = some '.') := fun hh => (hr '.' hh).2 rfl
  simp only [parseDec, parseNat_natLit n rest (fun c hc => (hr c hc).1)]
  rw [if_neg hdot]

/-- Decimal parsing of a rendered fraction at a boundary. -/
theorem parseDec_frac (q r s : Nat) (rest : List Char) (hs : 1 ≤ s) (hrs : r < 10 ^ s)
    (hr : ∀ c, rest.head? = some c → c.isDigit = false) :
    parseDec (natLit q ++ '.' :: (natLitW s r ++ rest)) = some (q * 10 ^ s + r, s, rest) := by
  have h1 : parseNat (natLit q ++ '.' :: (natLitW s r ++ rest)) =
      some (q, '.' :: (natLitW s r ++ rest)) :=
    parseNat_natLit q _ (fun c hc => by
      simp only [List.head?_cons, Option.some.injEq] at hc
      rw [← hc]
      rfl)
  have hne : natLitW s r ≠ [] := by
    intro hnil
    have := natLitW_len hrs hs
    rw [hnil] at this
    simp at this
    omega
  simp only [parseDec, h1, List.head?_cons, if_pos, List.drop_succ_cons, List.drop_zero]
  rw [parseNat_digits (natLitW s r) rest (natLitW_digits s r) hne hr]
  rw [takeWhile_prefix_append _ _ _ (natLitW_digits s r) hr, natLitW_len hrs hs,
    natLitW_val]

/-- Signed numeric parsing inverts numeric rendering at a boundary. -/
theorem parseNumVal_renderNum (n : NumVal) (rest : List Char)
    (hr : ∀ c, rest.head? = some c → c.isDigit = false ∧ ¬(c = '.') ∧ ¬(c = '-')) :
    parseNumVal (renderNum n ++ rest) = some (n, rest) := by
  cases n with
  | nan =>
      rw [parseNumVal, if_pos (by simp [renderNum])]
      simp [renderNum]
  | posInf =>
      rw [parseNumVal, if_neg (by simp [renderNum]), if_pos (by simp [renderNum])]
      simp [renderNum]
  | negInf =>
      rw [parseNumVal, if_neg (by simp [renderNum]), if_neg (by simp [renderNum]),
        if_pos (by simp [renderNum])]
      simp [renderNum]
  | finite m s =>
      have hdm : m.natAbs / 10 ^ s * 10 ^ s + m.natAbs % 10 ^ s = m.natAbs :=
        Nat.div_add_mod' _ _
      by_cases hms : m < 0
      · by_cases hs : s = 0
        · subst hs
          rw [show renderNum (.finite m 0) ++ rest = '-' :: (natLit m.natAbs ++ rest) from by
            simp [renderNum, intLit, hms]]
          rw [parseNumVal,
            if_neg (by
              intro hc
              simp only [List.take_succ_cons, List.cons.injEq] at hc
              exact absurd hc.1 (by decide)),
            if_neg (by
              intro hc
              simp only [List.take_succ_cons, List.cons.injEq] at hc
              exact absurd hc.1 (by decide)),
            if_neg (by
              intro hc
              simp only [List.take_succ_cons, List.cons.injEq] at hc
              exact take_digits_ne (natLit_ne_nil _) (natLit_digits _) (by decide) _ 3
                (by omega) hc.2),
            if_pos (by simp)]
          simp only [List.drop_succ_cons, List.drop_zero]
          rw [parseDec_natLit _ _ (fun c hc => ⟨(hr c hc).1, (hr c hc).2.1⟩)]
          simp only [Option.some.injEq, Prod.mk.injEq, NumVal.finite.injEq, and_true]
          omega
        · rw [show renderNum (.finite m s) ++ rest =
              '-' :: (natLit (m.natAbs / 10 ^ s) ++
                '.' :: (natLitW s (m.natAbs % 10 ^ s) ++ rest)) from by
            simp [renderNum, hs, hms]]
          rw [parseNumVal,
            if_neg (by
              intro hc
              simp only [List.take_succ_cons, List.cons.injEq] at hc
              exact absurd hc.1 (by decide)),
            if_neg (by
              intro hc
              simp only [List.take_succ_cons, List.cons.injEq] at hc
              exact absurd hc.1 (by decide)),
            if_neg (by
              intro hc
              simp only [List.take_succ_cons, List.cons.injEq] at hc
              exact take_digits_ne (natLit_ne_nil _) (natLit_digits _) (by decide) _ 3
                (by omega) hc.2),
            if_pos (by simp)]
          simp only [List.drop_succ_cons, List.drop_zero]
          rw [parseDec_frac _ _ s rest (by omega) (Nat.mod_lt _ (by positivity))
            (fun c hc => (hr c hc).1)]
          simp only [Option.some.injEq, Prod.mk.injEq, NumVal.finite.injEq, and_true,
            true_and, hdm]
          omega
      · by_cases hs : s = 0
        · subst hs
          rw [show renderNum (.finite m 0) ++ rest = natLit m.natAbs ++ rest from by
            simp [renderNum, intLit, hms]]
          rw [parseNumVal,
            if_neg (take_digits_ne (natLit_ne_nil _) (natLit_digits _) (by decide) _ 3
              (by omega)),
            if_neg (take_digits_ne (natLit_ne_nil _) (natLit_digits _) (by decide) _ 3
              (by omega)),
            if_neg (take_digits_ne (natLit_ne_nil _) (natLit_digits _) (by decide) _ 4
              (by omega)),
            if_neg (head_digits_ne (natLit_ne_nil _) (natLit_digits _) (by decide))]
          rw [parseDec_natLit _ _ (fun c hc => ⟨(hr c hc).1, (hr c hc).2.1⟩)]
          simp only [Option.some.injEq, Prod.mk.injEq, NumVal.finite.injEq, and_true]
          omega
        · rw [show renderNum (.finite m s) ++ rest =
              natLit (m.natAbs / 10 ^ s) ++
                '.' :: (natLitW s (m.natAbs % 10 ^ s) ++ rest) from by
            simp [renderNum, hs, hms]]
          rw [parseNumVal,
            if_neg (take_digits_ne (natLit_ne_nil _) (natLit_digits _) (by decide) _ 3
              (by omega)),
            if_neg (take_digits_ne (natLit_ne_nil _) (natLit_digits _) (by decide) _ 3
              (by omega)),
            if_neg (take_digits_ne (natLit_ne_nil _) (natLit_digits _) (by decide) _ 4
              (by omega)),
            if_neg (head_digits_ne (natLit_ne_nil _) (natLit_digits _) (by decide))]
          rw [parseDec_frac _ _ s rest (by omega) (Nat.mod_lt _ (by positivity))
            (fun c hc => (hr c hc).1)]
          simp only [Option.some.injEq, Prod.mk.injEq, NumVal.finite.injEq, and_true,
            true_and, hdm]
          omega

/-- Unit-tagged numeric decoding inverts rendering. -/
theorem decodeNumPayload_render (n : NumVal) (u : Option String) (hu : canonUnit u = true) :
    decodeNumPayload (renderNumUnit n u) = some (n, u) := by
  cases u with
  | none =>
      have h := parseNumVal_renderNum n [] (by simp)
      rw [List.append_nil] at h
      simp [decodeNumPayload, renderNumUnit, h]
  | some st =>
      have h := parseNumVal_renderNum n (' ' :: st.data) (by
        intro c hc
        simp only [List.head?_cons, Option.some.injEq] at hc
        subst hc
        refine ⟨rfl, by decide, by decide⟩)
      have hne : st.data ≠ [] := by
        intro hnil
        have hst : st = "" := by
          apply String.ext
          simpa using hnil
        rw [hst] at hu
        simp [canonUnit] at hu
        exact absurd hu (by decide)
      simp only [renderNumUnit]
      simp only [decodeNumPayload, h]
      rw [if_neg (by simpa using hne)]

/-- Encoded-number decoding inverts tag-encoding of a number. -/
theorem decodeNumEnc_render (n : NumVal) (u : Option String) (hu : canonUnit u = true) :
    decodeNumEnc ('n' :: ':' :: renderNumUnit n u) = some (n, u) := by
  simp [decodeNumEnc, decodeNumPayload_render n u hu]

/-- Numeric equality is reflexive. -/
theorem numEqB_refl (n : NumVal) : numEqB n n = true := by
  cases n <;> simp [numEqB]

/-- Scales agree when a cross-multiplied equality meets canonicity. -/
theorem canon_scale_aux {m m' : Int} {s s' : Nat} (hle : s ≤ s')
    (hc' : s' = 0 ∨ ¬(m' % 10 = 0)) (heq : m * 10 ^ s' = m' * 10 ^ s) : s' = s := by
  obtain ⟨d, rfl⟩ := Nat.exists_eq_add_of_le hle
  rcases Nat.eq_zero_or_pos d with hd | hd
  · omega
  · exfalso
    have h10 : ((10 : Int) ^ s) ≠ 0 := by positivity
    have hmd : m * 10 ^ d = m' := by
      have h2 : (m * 10 ^ d) * 10 ^ s = m' * 10 ^ s := by
        rw [← heq, pow_add]
        ring
      exact mul_right_cancel₀ h10 h2
    have : m' % 10 = 0 := by
      rw [← hmd]
      have : (10 : Int) ∣ m * 10 ^ d := by
        refine Dvd.dvd.mul_left ?_ m
        exact dvd_pow_self 10 (by omega)
      omega
    rcases hc' with hc' | hc'
    · omega
    · exact hc' this

/-- Canonical numbers are numerically equal exactly when equal. -/
theorem numEqB_iff {n n' : NumVal} (h : canonNum n = true) (h' : canonNum n' = true) :
    numEqB n n' = true ↔ n = n' := by
  constructor
  · intro heq
    cases n with
    | finite m s =>
        cases n' with
        | finite m' s' =>
            simp only [numEqB, beq_iff_eq] at heq
            simp only [canonNum, Bool.or_eq_true, beq_iff_eq, Bool.not_eq_true',
              beq_eq_false_iff_ne, ne_eq] at h h'
            have hss : s = s' := by
              rcases Nat.le_total s s' with hle | hle
              · exact (canon_scale_aux hle h' heq).symm
              · exact canon_scale_aux hle h heq.symm
            subst hss
            have h10 : ((10 : Int) ^ s) ≠ 0 := by positivity
            rw [mul_right_cancel₀ h10 heq]
        | nan => simp [numEqB] at heq
        | posInf => simp [numEqB] at heq
        | negInf => simp [numEqB] at heq
    | nan => cases n' <;> simp_all [numEqB]
    | posInf => cases n' <;> simp_all [numEqB]
    | negInf => cases n' <;> simp_all [numEqB]
  · intro heq
    subst heq
    exact numEqB_refl n

/-- ISO date parsing inverts date rendering. -/
theorem parseDateBody_render {y m d : Nat} (hy : y < 10000) (hm : m < 100) (hd : d < 100)
    (rest : List Char) :
    parseDateBody (renderDate y m d ++ rest) = some ((y, m, d), rest) := by
  have e1 := @parseFixedNat_natLitW 4 y (by omega) (by omega)
    ('-' :: (natLitW 2 m ++ '-' :: (natLitW 2 d ++ rest)))
  have e2 := @parseFixedNat_natLitW 2 m (by omega) (by omega)
    ('-' :: (natLitW 2 d ++ rest))
  have e3 := @parseFixedNat_natLitW 2 d (by omega) (by omega) rest
  simp only [renderDate, List.append_assoc, List.cons_append, parseDateBody, e1, e2, e3]

/-- ISO time parsing inverts time rendering. -/
theorem parseTimeBody_render {h mi s ms : Nat} (hh : h < 100) (hmi : mi < 100)
    (hs : s < 100) (hms : ms < 1000) (rest : List Char) :
    parseTimeBody (renderTime h mi s ms ++ rest) = some ((h, mi, s, ms), rest) := by
  have e1 := @parseFixedNat_natLitW 2 h (by omega) (by omega)
    (':' :: (natLitW 2 mi ++ ':' :: (natLitW 2 s ++ '.' :: (natLitW 3 ms ++ rest))))
  have e2 := @parseFixedNat_natLitW 2 mi (by omega) (by omega)
    (':' :: (natLitW 2 s ++ '.' :: (natLitW 3 ms ++ rest)))
  have e3 := @parseFixedNat_natLitW 2 s (by omega) (by omega)
    ('.' :: (natLitW 3 ms ++ rest))
  have e4 := @parseFixedNat_natLitW 3 ms (by omega) (by omega) rest
  simp only [renderTime, List.append_assoc, List.cons_append, parseTimeBody, e1, e2, e3, e4]

/-- Offset parsing inverts offset rendering. -/
theorem parseOffset_render {off : Int} (hoff : off.natAbs < 6000) (rest : List Char) :
    parseOffset (renderOffset off ++ rest) = some (off, rest) := by
  have e1 := @parseFixedNat_natLitW 2 (off.natAbs / 60) (by omega) (by omega)
    (':' :: (natLitW 2 (off.natAbs % 60) ++ rest))
  have e2 := @parseFixedNat_natLitW 2 (off.natAbs % 60) (by omega) (by omega) rest
  by_cases h0 : off = 0
  · subst h0
    simp [renderOffset, parseOffset]
  · by_cases hneg : off < 0
    · rw [show renderOffset off ++ rest =
          '-' :: (natLitW 2 (off.natAbs / 60) ++ ':' :: (natLitW 2 (off.natAbs % 60) ++ rest))
          from by simp [renderOffset, h0, hneg, List.append_assoc]]
      simp only [parseOffset, e1, e2, Option.some.injEq, Prod.mk.injEq, and_true]
      omega
    · rw [show renderOffset off ++ rest =
          '+' :: (natLitW 2 (off.natAbs / 60) ++ ':' :: (natLitW 2 (off.natAbs % 60) ++ rest))
          from by simp [renderOffset, h0, hneg, List.append_assoc]]
      simp only [parseOffset, e1, e2, Option.some.injEq, Prod.mk.injEq, and_true]
      omega

/-- ISO instant parsing inverts instant rendering. -/
theorem parseDateTimeNoMs_render {y mo d h mi s : Nat} {off : Int}
    (hy : y < 10000) (hmo : mo < 100) (hd : d < 100) (hh : h < 100) (hmi : mi < 100)
    (hs : s < 100) (hoff : off.natAbs < 6000) (tz : String) :
    parseDateTimeNoMs (renderDateTime y mo d h mi s off tz) =
      some ((y, mo, d, h, mi, s), off, ' ' :: tz.data) := by
  have e0 := parseDateBody_render hy hmo hd
    ('T' :: (natLitW 2 h ++ ':' :: (natLitW 2 mi ++ ':' ::
      (natLitW 2 s ++ (renderOffset off ++ ' ' :: tz.data)))))
  have e1 := @parseFixedNat_natLitW 2 h (by omega) (by omega)
    (':' :: (natLitW 2 mi ++ ':' :: (natLitW 2 s ++ (renderOffset off ++ ' ' :: tz.data))))
  have e2 := @parseFixedNat_natLitW 2 mi (by omega) (by omega)
    (':' :: (natLitW 2 s ++ (renderOffset off ++ ' ' :: tz.data)))
  have e3 := @parseFixedNat_natLitW 2 s (by omega) (by omega)
    (renderOffset off ++ ' ' :: tz.data)
  have e4 := parseOffset_render hoff (' ' :: tz.data)
  rw [show renderDateTime y mo d h mi s off tz =
      renderDate y mo d ++ ('T' :: (natLitW 2 h ++ ':' :: (natLitW 2 mi ++ ':' ::
        (natLitW 2 s ++ (renderOffset off ++ ' ' :: tz.data))))) from by
    simp [renderDateTime, List.append_assoc]]
  simp only [parseDateTimeNoMs, e0, e1, e2, e3, e4]

/-- Only Null encodes as JSON null. -/
theorem encode_null_iff (v : Value) :
    encodeValue v = ['n', 'u', 'l', 'l'] ↔ v = .null := by
  cases v <;>
    first
      | (simp [encodeValue]; done)
      | (rename_i b; cases b <;> simp [encodeValue])

/-- Only the Boolean false encodes as JSON false. -/
theorem encode_false_iff (v : Value) :
    encodeValue v = ['f', 'a', 'l', 's', 'e'] ↔ v = .bool false := by
  cases v <;> simp [encodeValue]

/-- `json_extract` over a loaded entity is lookup followed by encoding,
with JSON null extracting to NULL. -/
theorem jsonExtract_encode (e : Entity) (t : String) :
    jsonExtract (encodeEntity e) t =
      match lookupTag e t with
      | some v => if encodeValue v = ['n', 'u', 'l', 'l'] then none else some (encodeValue v)
      | none => none := by
  simp only [jsonExtract, encodeEntity, lookupTag, List.find?_map, Function.comp_def]
  cases hf : e.find? (fun kv => kv.1 == t) with
  | none => simp [hf]
  | some kv => simp [hf]

/-- Ref decoding of an encoded value recovers exactly the Ref names. -/
theorem decodeRefEnc_encode (v : Value) :
    decodeRefEnc (encodeValue v) =
      match v with
      | .ref n _ => some n
      | _ => none := by
  cases v <;>
    first
      | (simp [encodeValue, decodeRefEnc]; done)
      | (rename_i b; cases b <;> simp [encodeValue, decodeRefEnc])

/-- String decoding of an encoded value recovers exactly the Strs. -/
theorem decodeStrEnc_encode (v : Value) :
    decodeStrEnc (encodeValue v) =
      match v with
      | .str s => some s
      | _ => none := by
  cases v <;>
    first
      | (simp [encodeValue, decodeStrEnc]; done)
      | (rename_i b; cases b <;> simp [encodeValue, decodeStrEnc])

/-- Numeric decoding of an encoded canonical value recovers exactly the
Numbers. -/
theorem decodeNumEnc_encode (v : Value) (hv : canonV v = true) :
    decodeNumEnc (encodeValue v) =
      match v with
      | .number n u => some (n, u)
      | _ => none := by
  cases v <;>
    first
      | (simp [encodeValue, decodeNumEnc]; done)
      | ((rename_i b; cases b <;> simp [encodeValue, decodeNumEnc]); done)
      | skip
  all_goals
    rename_i n u
    simp only [canonV, Bool.and_eq_true] at hv
    simp only [encodeValue, decodeNumEnc]
    exact decodeNumPayload_render n u hv.2

/-- Date decoding of an encoded canonical value recovers exactly the Dates. -/
theorem decodeDateEnc_encode (v : Value) (hv : canonV v = true) :
    decodeDateEnc (encodeValue v) =
      match v with
      | .date y m d => some (y, m, d)
      | _ => none := by
  cases v <;>
    first
      | (simp [encodeValue, decodeDateEnc]; done)
      | ((rename_i b; cases b <;> simp [encodeValue, decodeDateEnc]); done)
      | skip
  all_goals
    rename_i y m d
    simp only [canonV, Bool.and_eq_true, decide_eq_true_eq] at hv
    have hb := @parseDateBody_render y m d hv.1.1 hv.1.2 hv.2 ([] : List Char)
    rw [List.append_nil] at hb
    simp only [encodeValue, decodeDateEnc, hb]

/-- Time decoding of an encoded canonical value recovers exactly the Times. -/
theorem decodeTimeEnc_encode (v : Value) (hv : canonV v = true) :
    decodeTimeEnc (encodeValue v) =
      match v with
      | .time h mi s ms => some (h, mi, s, ms)
      | _ => none := by
  cases v <;>
    first
      | (simp [encodeValue, decodeTimeEnc]; done)
      | ((rename_i b; cases b <;> simp [encodeValue, decodeTimeEnc]); done)
      | skip
  all_goals
    rename_i h mi s ms
    simp only [canonV, Bool.and_eq_true, decide_eq_true_eq] at hv
    have hb := @parseTimeBody_render h mi s ms hv.1.1.1 (by omega) (by omega) hv.2
      ([] : List Char)
    rw [List.append_nil] at hb
    simp only [encodeValue, decodeTimeEnc, hb]

/-- DateTime decoding of an encoded canonical value recovers exactly the
DateTimes. -/
theorem decodeDateTimeEnc_encode (v : Value) (hv : canonV v = true) :
    decodeDateTimeEnc (encodeValue v) =
      match v with
      | .dateTime y mo d h mi s o tz => some ((y, mo, d, h, mi, s), o, tz)
      | _ => none := by
  cases v <;>
    first
      | (simp [encodeValue, decodeDateTimeEnc]; done)
      | ((rename_i b; cases b <;> simp [encodeValue, decodeDateTimeEnc]); done)
      | skip
  all_goals
    rename_i y mo d h mi s o tz
    simp only [canonV, Bool.and_eq_true, decide_eq_true_eq] at hv
    have hr := @parseDateTimeNoMs_render y mo d h mi s o hv.1.1.1.1.1.1.1
      hv.1.1.1.1.1.1.2 hv.1.1.1.1.1.2 hv.1.1.1.1.2 (by omega) (by omega) hv.1.2 tz
    have hne : ¬(tz.data = []) := by
      intro hnil
      have : tz = "" := String.ext (by simpa using hnil)
      rw [this] at hv
      exact absurd hv.2 (by decide)
    simp only [encodeValue, decodeDateTimeEnc, hr]
    simp [hne]

/-- Numeric rendering is injective. -/
theorem renderNum_inj {n n' : NumVal} (h : renderNum n = renderNum n') : n = n' := by
  have h1 := parseNumVal_renderNum n [] (by simp)
  have h2 := parseNumVal_renderNum n' [] (by simp)
  rw [List.append_nil] at h1 h2
  rw [h, h2] at h1
  simp only [Option.some.injEq, Prod.mk.injEq, and_true] at h1
  exact h1.symm

/-- Unit-tagged numeric rendering is injective under canonical units. -/
theorem renderNumUnit_inj {n n' : NumVal} {u u' : Option String}
    (hu : canonUnit u = true) (hu' : canonUnit u' = true)
    (h : renderNumUnit n u = renderNumUnit n' u') : n = n' ∧ u = u' := by
  have h1 := decodeNumPayload_render n u hu
  have h2 := decodeNumPayload_render n' u' hu'
  rw [h, h2] at h1
  simp only [Option.some.injEq, Prod.mk.injEq] at h1
  exact ⟨h1.1.symm, h1.2.symm⟩

/-- A coordinate payload determines both rendered components. -/
theorem renderCoord_inj {la ln la' ln' : NumVal}
    (h : renderNum la ++ ',' :: renderNum ln = renderNum la' ++ ',' :: renderNum ln') :
    la = la' ∧ ln = ln' := by
  have hsep : ∀ c, ((',' : Char) :: renderNum ln).head? = some c →
      c.isDigit = false ∧ ¬(c = '.') ∧ ¬(c = '-') := by
    intro c hc
    simp only [List.head?_cons, Option.some.injEq] at hc
    subst hc
    exact ⟨by decide, by decide, by decide⟩
  have hsep' : ∀ c, ((',' : Char) :: renderNum ln').head? = some c →
      c.isDigit = false ∧ ¬(c = '.') ∧ ¬(c = '-') := by
    intro c hc
    simp only [List.head?_cons, Option.some.injEq] at hc
    subst hc
    exact ⟨by decide, by decide, by decide⟩
  have h1 := parseNumVal_renderNum la (',' :: renderNum ln) hsep
  have h2 := parseNumVal_renderNum la' (',' :: renderNum ln') hsep'
  rw [h, h2] at h1
  simp only [Option.some.injEq, Prod.mk.injEq, List.cons.injEq, true_and] at h1
  exact ⟨h1.1.symm, renderNum_inj h1.2.symm⟩

/-- ISO date rendering is injective under the canonical bounds. -/
theorem renderDate_inj {y m d y' m' d' : Nat} (hy : y < 10000) (hm : m < 100)
    (hd : d < 100) (hy' : y' < 10000) (hm' : m' < 100) (hd' : d' < 100)
    (h : renderDate y m d = renderDate y' m' d') : y = y' ∧ m = m' ∧ d = d' := by
  have h1 := parseDateBody_render hy hm hd ([] : List Char)
  have h2 := parseDateBody_render hy' hm' hd' ([] : List Char)
  rw [List.append_nil] at h1 h2
  rw [h, h2] at h1
  simp only [Option.some.injEq, Prod.mk.injEq, and_true] at h1
  exact ⟨h1.1.symm, h1.2.1.symm, h1.2.2.symm⟩

/-- ISO time rendering is injective under the canonical bounds. -/
theorem renderTime_inj {h mi s ms h' mi' s' ms' : Nat} (hh : h < 100) (hmi : mi < 100)
    (hs : s < 100) (hms : ms < 1000) (hh' : h' < 100) (hmi' : mi' < 100)
    (hs' : s' < 100) (hms' : ms' < 1000)
    (heq : renderTime h mi s ms = renderTime h' mi' s' ms') :
    h = h' ∧ mi = mi' ∧ s = s' ∧ ms = ms' := by
  have h1 := parseTimeBody_render hh hmi hs hms ([] : List Char)
  have h2 := parseTimeBody_render hh' hmi' hs' hms' ([] : List Char)
  rw [List.append_nil] at h1 h2
  rw [heq, h2] at h1
  simp only [Option.some.injEq, Prod.mk.injEq, and_true] at h1
  exact ⟨h1.1.symm, h1.2.1.symm, h1.2.2.1.symm, h1.2.2.2.symm⟩

/-- ISO instant rendering is injective under the canonical bounds. -/
theorem renderDateTime_inj {y mo d h mi s : Nat} {off : Int} {tz : String}
    {y' mo' d' h' mi' s' : Nat} {off' : Int} {tz' : String}
    (hy : y < 10000) (hmo : mo < 100) (hd : d < 100) (hh : h < 100) (hmi : mi < 100)
    (hs : s < 100) (hoff : off.natAbs < 6000)
    (hy' : y' < 10000) (hmo' : mo' < 100) (hd' : d' < 100) (hh' : h' < 100)
    (hmi' : mi' < 100) (hs' : s' < 100) (hoff' : off'.natAbs < 6000)
    (heq : renderDateTime y mo d h mi s off tz =
      renderDateTime y' mo' d' h' mi' s' off' tz') :
    y = y' ∧ mo = mo' ∧ d = d' ∧ h = h' ∧ mi = mi' ∧ s = s' ∧ off = off' ∧ tz = tz' := by
  have h1 := parseDateTimeNoMs_render hy hmo hd hh hmi hs hoff tz
  have h2 := parseDateTimeNoMs_render hy' hmo' hd' hh' hmi' hs' hoff' tz'
  rw [heq, h2] at h1
  simp only [Option.some.injEq, Prod.mk.injEq, List.cons.injEq, true_and] at h1
  obtain ⟨⟨e1, e2, e3, e4, e5, e6⟩, e7, e8⟩ := h1
  exact ⟨e1.symm, e2.symm, e3.symm, e4.symm, e5.symm, e6.symm, e7.symm,
    (String.ext e8).symm⟩

/-- No tag-encoding opens with a colon, even under a suffix. -/
theorem encodeValue_append_head_ne_colon (v : Value) (tail : List Char) :
    ¬((encodeValue v ++ tail).head? = some ':') := by
  cases v <;>
    first
      | (simp [encodeValue]; done)
      | (rename_i b; cases b <;> simp [encodeValue])

/-- A bracket-closed list body never opens with a colon. -/
theorem encodeList_bracket_head (xs : List Value) :
    ¬((encodeList xs ++ [']']).head? = some ':') := by
  cases xs with
  | nil => simp [encodeList]
  | cons x rest =>
      cases rest with
      | nil => simpa [encodeList] using encodeValue_append_head_ne_colon x [']']
      | cons y rest2 =>
          simpa [encodeList, List.append_assoc] using
            encodeValue_append_head_ne_colon x (',' :: encodeList (y :: rest2) ++ [']'])

/-- An encoded list carries no scalar kind tag. -/
theorem kindTag_listEnc (xs : List Value) : kindTag (encodeValue (.list xs)) = none := by
  have h := encodeList_bracket_head xs
  simp only [encodeValue, kindTag]
  rw [if_neg (by simp), if_neg (by simp), if_neg (by simpa using h)]

/-- An encoded nested grid carries no scalar kind tag. -/
theorem kindTag_gridEnc (m : List (String × Value))
    (c : List (String × List (String × Value))) (r : List (List (String × Value))) :
    kindTag (encodeValue (.grid m c r)) = none := by
  simp [encodeValue, kindTag]

/-- An encoded dict carries no scalar kind tag, or at most the brace
pseudo-tag, which no filter literal kind matches. -/
theorem kindTag_dictEnc (xs : List (String × Value)) :
    kindTag (encodeValue (.dict xs)) = none ∨
      kindTag (encodeValue (.dict xs)) = some '\x7b' := by
  simp only [encodeValue, kindTag]
  by_cases hc : ((encodeDict xs ++ ['\x7d']).head? = some ':')
  · right
    rw [if_neg (by simp), if_neg (by simp), if_pos (by simpa using hc)]
    rfl
  · left
    rw [if_neg (by simp), if_neg (by simp), if_neg (by simpa using hc)]

/-- The kind guard of the translated `!=` agrees with the evaluator's type
compatibility on every non-Null stored value. -/
theorem kindTag_encode_compat (v : Value) (fs : FScalar) (hnn : ¬(v = Value.null)) :
    (kindTag (encodeValue v) == some (fsKind fs)) = typeCompat v fs := by
  cases v
  case null => exact absurd rfl hnn
  case list xs =>
      rw [kindTag_listEnc]
      cases fs <;> rfl
  case grid =>
      rw [kindTag_gridEnc]
      cases fs <;> rfl
  case dict xs =>
      rcases kindTag_dictEnc xs with h | h <;> rw [h] <;> cases fs <;> rfl
  case bool b => cases b <;> cases fs <;> rfl
  all_goals cases fs <;> rfl

/-- On canonical non-Null values, the stored encoding equals the bound
literal encoding exactly when the evaluator's equality holds. -/
theorem encode_eq_encodeF_iff (v : Value) (fs : FScalar) (hv : canonV v = true)
    (hf : canonF fs = true) (hnn : ¬(v = Value.null)) :
    encodeValue v = encodeF fs ↔ semEq v fs = true := by
  constructor
  · intro henc
    cases v
    case null => exact absurd rfl hnn
    case bool b =>
        cases b <;> cases fs <;>
          first
            | (simp [encodeValue, encodeF] at henc; done)
            | (rename_i b'; cases b' <;> simp_all [encodeValue, encodeF, semEq])
    all_goals
      cases fs <;>
        first
          | (simp [encodeValue, encodeF] at henc; done)
          | ((rename_i b'; cases b' <;> simp [encodeValue, encodeF] at henc); done)
          | skip
    case fmarker => rfl
    case fremove => rfl
    case fna => rfl
    case fnum =>
        simp only [canonV, Bool.and_eq_true] at hv
        simp only [canonF, Bool.and_eq_true] at hf
        simp only [encodeValue, encodeF, List.cons.injEq, true_and] at henc
        obtain ⟨hn, hu⟩ := renderNumUnit_inj hv.2 hf.2 henc
        subst hn; subst hu
        simp [semEq, numEqB_refl]
    case fstr =>
        simp only [encodeValue, encodeF, List.cons.injEq, true_and] at henc
        simp only [semEq, beq_iff_eq]
        exact String.ext henc
    case furi =>
        simp only [encodeValue, encodeF, List.cons.injEq, true_and] at henc
        simp only [semEq, beq_iff_eq]
        exact String.ext henc
    case fref =>
        simp only [encodeValue, encodeF, List.cons.injEq, true_and] at henc
        simp only [semEq, beq_iff_eq]
        exact String.ext henc
    case fdate =>
        simp only [canonV, canonF, Bool.and_eq_true, decide_eq_true_eq] at hv hf
        simp only [encodeValue, encodeF, List.cons.injEq, true_and] at henc
        obtain ⟨h1, h2, h3⟩ := renderDate_inj hv.1.1 hv.1.2 hv.2 hf.1.1 hf.1.2 hf.2 henc
        subst h1; subst h2; subst h3
        simp [semEq]
    case ftime =>
        simp only [canonV, canonF, Bool.and_eq_true, decide_eq_true_eq] at hv hf
        simp only [encodeValue, encodeF, List.cons.injEq, true_and] at henc
        obtain ⟨h1, h2, h3, h4⟩ := renderTime_inj hv.1.1.1 (by omega) (by omega) hv.2
          hf.1.1.1 (by omega) (by omega) hf.2 henc
        subst h1; subst h2; subst h3; subst h4
        simp [semEq]
    case fdateTime =>
        simp only [canonV, canonF, Bool.and_eq_true, decide_eq_true_eq] at hv hf
        simp only [encodeValue, encodeF, List.cons.injEq, true_and] at henc
        obtain ⟨h1, h2, h3, h4, h5, h6, h7, h8⟩ := renderDateTime_inj
          hv.1.1.1.1.1.1.1 hv.1.1.1.1.1.1.2 hv.1.1.1.1.1.2 hv.1.1.1.1.2 (by omega)
          (by omega) hv.1.2 hf.1.1.1.1.1.1.1 hf.1.1.1.1.1.1.2 hf.1.1.1.1.1.2
          hf.1.1.1.1.2 (by omega) (by omega) hf.1.2 henc
        subst h1; subst h2; subst h3; subst h4; subst h5; subst h6; subst h7; subst h8
        simp [semEq]
    case fcoord =>
        simp only [canonV, Bool.and_eq_true] at hv
        simp only [canonF, Bool.and_eq_true] at hf
        simp only [encodeValue, encodeF, List.cons_append, List.cons.injEq,
          true_and] at henc
        obtain ⟨h1, h2⟩ := renderCoord_inj henc
        subst h1; subst h2
        simp [semEq, numEqB_refl]
  · intro hsem
    cases v <;> cases fs <;>
      first
        | (simp_all [semEq, encodeValue, encodeF]; done)
        | skip
    all_goals
      simp only [canonV, canonF, Bool.and_eq_true] at hv hf
      simp only [semEq, Bool.and_eq_true, beq_iff_eq] at hsem
      first
        | (obtain ⟨h1, h2⟩ := hsem
           rw [(numEqB_iff hv.1 hf.1).1 h1, h2]
           try rfl)
        | (obtain ⟨h1, h2⟩ := hsem
           rw [(numEqB_iff hv.1 hf.1).1 h1, (numEqB_iff hv.2 hf.2).1 h2]
           try rfl)

/-- A tag looked up in a canonical entity is canonical. -/
theorem lookupTag_canon {e : Entity} {t : String} {v : Value}
    (hce : canonEnt e = true) (hk : lookupTag e t = some v) : canonV v = true := by
  unfold lookupTag at hk
  cases hf : e.find? (fun kv => kv.1 == t) with
  | none => rw [hf] at hk; cases hk
  | some kv =>
      rw [hf] at hk
      injection hk with hk
      have hmem := List.mem_of_find?_eq_some hf
      have hall := (List.all_eq_true.1 hce) kv hmem
      rw [← hk]
      simpa using hall

/-- Every member of a canonical entity set is a canonical entity. -/
theorem canonEnt_of_mem {es : List Entity} {e : Entity}
    (hc : canonEnts es = true) (hm : e ∈ es) : canonEnt e = true :=
  (List.all_eq_true.1 hc) e hm

/-- A resolved entity belongs to the entity set. -/
theorem resolveRef_mem {es : List Entity} {n : String} {e2 : Entity}
    (h : resolveRef es n = some e2) : e2 ∈ es :=
  List.mem_of_find?_eq_some h

/-- Distinct ids are preserved by dropping the head entity. -/
theorem nodupIds_tail {e : Entity} {es : List Entity}
    (h : nodupIds (e :: es) = true) : nodupIds es = true := by
  simp only [nodupIds, decide_eq_true_eq] at h ⊢
  rw [List.filterMap_cons] at h
  cases hi : idOf e with
  | none => rwa [hi] at h
  | some i => rw [hi] at h; exact h.of_cons

/-- Under distinct ids, no tail entity carries the head entity's id. -/
theorem nodupIds_head {e : Entity} {es : List Entity} {n : String}
    (h : nodupIds (e :: es) = true) (he : idOf e = some n) :
    ∀ e2 ∈ es, ¬(idOf e2 = some n) := by
  simp only [nodupIds, decide_eq_true_eq] at h
  rw [List.filterMap_cons, he] at h
  have hnm : ¬(n ∈ es.filterMap idOf) := (List.nodup_cons.1 h).1
  intro e2 hm hid2
  exact hnm (List.mem_filterMap.2 ⟨e2, hm, hid2⟩)

/-- The id-join condition of the inner SELECT coincides with the resolver's
id test on loaded rows. -/
theorem jsonExtract_id_ref (e2 : Entity) (n : String) :
    (jsonExtract (encodeEntity e2) "id" == some ('r' :: ':' :: n.data)) =
      (idOf e2 == some n) := by
  rw [Bool.eq_iff_iff]
  simp only [beq_iff_eq]
  rw [jsonExtract_encode]
  cases hk : lookupTag e2 "id" with
  | none => simp [idOf, hk]
  | some v =>
      show (if encodeValue v = ['n', 'u', 'l', 'l'] then none
          else some (encodeValue v)) = some ('r' :: ':' :: n.data) ↔ idOf e2 = some n
      by_cases hnl : encodeValue v = ['n', 'u', 'l', 'l']
      · rw [if_pos hnl]
        have hveq := (encode_null_iff v).1 hnl
        subst hveq
        simp [idOf, hk]
      · rw [if_neg hnl]
        cases v <;>
          first
            | (exact absurd rfl hnl)
            | (simp [idOf, hk, encodeValue]; done)
            | ((rename_i b; cases b <;> simp [idOf, hk, encodeValue]); done)
            | (rename_i n' d2
               simp only [idOf, hk, encodeValue, Option.some.injEq, List.cons.injEq,
                 true_and]
               exact ⟨fun hd => String.ext hd, fun hh => by rw [hh]⟩)

/-- Under distinct ids, the inner SELECT over the loaded database coincides
with the in-memory resolver. -/
theorem any_resolve_enc (es : List Entity) (n : String) (Q : DbRow → Bool)
    (hid : nodupIds es = true) :
    ((es.map encodeEntity).any fun row2 =>
        jsonExtract row2 "id" == some ('r' :: ':' :: n.data) && Q row2) =
      (match resolveRef es n with
       | some e2 => Q (encodeEntity e2)
       | none => false) := by
  induction es with
  | nil => rfl
  | cons e2 rest ih =>
      simp only [List.map_cons, List.any_cons]
      rw [jsonExtract_id_ref]
      by_cases hm : (idOf e2 == some n) = true
      · have hr : resolveRef (e2 :: rest) n = some e2 :=
          List.find?_cons_of_pos rest hm
        rw [hr, hm, Bool.true_and]
        have hnone : ((rest.map encodeEntity).any fun row2 =>
            jsonExtract row2 "id" == some ('r' :: ':' :: n.data) && Q row2) = false := by
          rw [List.any_eq_false]
          intro row2 hrow
          obtain ⟨e3, he3, rfl⟩ := List.mem_map.1 hrow
          rw [jsonExtract_id_ref]
          have hne3 := nodupIds_head hid (beq_iff_eq.1 hm) e3 he3
          have h4 : (idOf e3 == some n) = false := beq_eq_false_iff_ne.2 hne3
          simp [h4]
        rw [hnone, Bool.or_false]
      · simp only [Bool.not_eq_true] at hm
        rw [hm, Bool.false_and, Bool.false_or]
        have hr : resolveRef (e2 :: rest) n = resolveRef rest n :=
          List.find?_cons_of_neg rest (by simp [hm])
        rw [hr]
        exact ih (nodupIds_tail hid)

/-- Extraction of a present non-Null tag from a loaded row. -/
theorem jsonExtract_encode_some {e : Entity} {t : String} {v : Value}
    (hk : lookupTag e t = some v) (hnl : ¬(v = Value.null)) :
    jsonExtract (encodeEntity e) t = some (encodeValue v) := by
  rw [jsonExtract_encode, hk]
  simp [show ¬(encodeValue v = ['n', 'u', 'l', 'l']) from
    fun hh => hnl ((encode_null_iff v).1 hh)]

/-- Extraction of a present Null tag from a loaded row is SQL NULL. -/
theorem jsonExtract_encode_null {e : Entity} {t : String}
    (hk : lookupTag e t = some Value.null) :
    jsonExtract (encodeEntity e) t = none := by
  rw [jsonExtract_encode, hk]
  have h0 : encodeValue Value.null = ['n', 'u', 'l', 'l'] := by simp [encodeValue]
  simp [h0]

/-- Extraction of an absent tag from a loaded row is SQL NULL. -/
theorem jsonExtract_encode_none {e : Entity} {t : String}
    (hk : lookupTag e t = none) :
    jsonExtract (encodeEntity e) t = none := by
  rw [jsonExtract_encode, hk]

/-- The has-predicate on a loaded row agrees with tag presence and truth. -/
theorem runSql_hasTag (db : List DbRow) (t : String) (e : Entity) :
    runSql db (.hasTag t) (encodeEntity e) =
      (match lookupTag e t with
       | some v => hasTruth v
       | none => false) := by
  simp only [runSql]
  cases hk : lookupTag e t with
  | none => simp [jsonExtract_encode_none hk]
  | some v =>
      by_cases hnl : v = Value.null
      · subst hnl
        simp [jsonExtract_encode_null hk, hasTruth]
      · simp only [jsonExtract_encode_some hk hnl]
        by_cases hfl : encodeValue v = ['f', 'a', 'l', 's', 'e']
        · have hveq := (encode_false_iff v).1 hfl
          subst hveq
          simp [hfl, hasTruth]
        · have h1 : decide (¬(encodeValue v = ['f', 'a', 'l', 's', 'e'])) = true := by
            simp [hfl]
          simp only [h1]
          symm
          cases v <;>
            first
              | rfl
              | (exact absurd rfl hnl)
              | (rename_i b; cases b <;> first | rfl | (exact absurd rfl hfl))

/-- The translated comparison leaf on a loaded row agrees with the
evaluator's comparison step at the looked-up value. -/
theorem runSql_leaf (db : List DbRow) (t : String) (op : CmpOp) (fs : FScalar)
    (e : Entity) (hce : canonEnt e = true) (hf : canonF fs = true) :
    runSql db (sqlLeaf t op fs) (encodeEntity e) =
      (match lookupTag e t with
       | some v => semCmp op v fs
       | none => false) := by
  cases op with
  | eq =>
      simp only [sqlLeaf, runSql]
      cases hk : lookupTag e t with
      | none => simp [jsonExtract_encode_none hk]
      | some v =>
          have hv := lookupTag_canon hce hk
          by_cases hnl : v = Value.null
          · subst hnl
            rw [jsonExtract_encode_null hk]
            cases fs <;> rfl
          · rw [jsonExtract_encode_some hk hnl]
            have hiff := encode_eq_encodeF_iff v fs hv hf hnl
            show (some (encodeValue v) == some (encodeF fs)) = semEq v fs
            cases hsem : semEq v fs with
            | true => simp [hiff.2 hsem]
            | false =>
                have hne2 : ¬(encodeValue v = encodeF fs) := by
                  intro hh
                  have h3 := hiff.1 hh
                  rw [hsem] at h3
                  exact Bool.noConfusion h3
                simp only [beq_eq_false_iff_ne, ne_eq, Option.some.injEq]
                exact hne2
  | ne =>
      simp only [sqlLeaf, runSql]
      cases hk : lookupTag e t with
      | none => simp [jsonExtract_encode_none hk]
      | some v =>
          have hv := lookupTag_canon hce hk
          by_cases hnl : v = Value.null
          · subst hnl
            rw [jsonExtract_encode_null hk]
            cases fs <;> rfl
          · simp only [jsonExtract_encode_some hk hnl]
            show (kindTag (encodeValue v) == some (fsKind fs) &&
                decide (¬(encodeValue v = encodeF fs))) =
              (typeCompat v fs && !semEq v fs)
            rw [kindTag_encode_compat v fs hnl]
            cases htc : typeCompat v fs with
            | false => rfl
            | true =>
                simp only [Bool.true_and]
                have hiff := encode_eq_encodeF_iff v fs hv hf hnl
                cases hsem : semEq v fs with
                | true => simp [hiff.2 hsem]
                | false =>
                    have hne2 : ¬(encodeValue v = encodeF fs) := by
                      intro hh
                      have h3 := hiff.1 hh
                      rw [hsem] at h3
                      exact Bool.noConfusion h3
                    simp [hne2]
  | lt | le | gt | ge =>
      cases fs with
      | fnum n u =>
          simp only [sqlLeaf, runSql]
          cases hk : lookupTag e t with
          | none => simp [jsonExtract_encode_none hk]
          | some v =>
              have hv := lookupTag_canon hce hk
              by_cases hnl : v = Value.null
              · subst hnl
                simp [jsonExtract_encode_null hk, semCmp, semOrd]
              · simp only [jsonExtract_encode_some hk hnl]
                rw [decodeNumEnc_encode v hv]
                cases v <;> rfl
      | fstr s =>
          simp only [sqlLeaf, runSql]
          cases hk : lookupTag e t with
          | none => simp [jsonExtract_encode_none hk]
          | some v =>
              by_cases hnl : v = Value.null
              · subst hnl
                simp [jsonExtract_encode_null hk, semCmp, semOrd]
              · simp only [jsonExtract_encode_some hk hnl]
                rw [decodeStrEnc_encode v]
                cases v <;> rfl
      | fdate y m d =>
          simp only [sqlLeaf, runSql]
          cases hk : lookupTag e t with
          | none => simp [jsonExtract_encode_none hk]
          | some v =>
              have hv := lookupTag_canon hce hk
              by_cases hnl : v = Value.null
              · subst hnl
                simp [jsonExtract_encode_null hk, semCmp, semOrd]
              · simp only [jsonExtract_encode_some hk hnl]
                rw [decodeDateEnc_encode v hv]
                cases v <;> rfl
      | ftime th tmi ts tms =>
          simp only [sqlLeaf, runSql]
          cases hk : lookupTag e t with
          | none => simp [jsonExtract_encode_none hk]
          | some v =>
              have hv := lookupTag_canon hce hk
              by_cases hnl : v = Value.null
              · subst hnl
                simp [jsonExtract_encode_null hk, semCmp, semOrd]
              · simp only [jsonExtract_encode_some hk hnl]
                rw [decodeTimeEnc_encode v hv]
                cases v <;> rfl
      | fdateTime dy dmo dd dh dmi ds doff dtz =>
          simp only [sqlLeaf, runSql]
          cases hk : lookupTag e t with
          | none => simp [jsonExtract_encode_none hk]
          | some v =>
              have hv := lookupTag_canon hce hk
              by_cases hnl : v = Value.null
              · subst hnl
                simp [jsonExtract_encode_null hk, semCmp, semOrd]
              · simp only [jsonExtract_encode_some hk hnl]
                rw [decodeDateTimeEnc_encode v hv]
                cases v <;> rfl
      | fnull =>
          show false = _
          cases hk : lookupTag e t with
          | none => rfl
          | some v => cases v <;> rfl
      | fmarker =>
          show false = _
          cases hk : lookupTag e t with
          | none => rfl
          | some v => cases v <;> rfl
      | fremove =>
          show false = _
          cases hk : lookupTag e t with
          | none => rfl
          | some v => cases v <;> rfl
      | fna =>
          show false = _
          cases hk : lookupTag e t with
          | none => rfl
          | some v => cases v <;> rfl
      | fbool b2 =>
          show false = _
          cases hk : lookupTag e t with
          | none => rfl
          | some v => cases v <;> rfl
      | furi s2 =>
          show false = _
          cases hk : lookupTag e t with
          | none => rfl
          | some v => cases v <;> rfl
      | fref n2 =>
          show false = _
          cases hk : lookupTag e t with
          | none => rfl
          | some v => cases v <;> rfl
      | fcoord la2 ln2 =>
          show false = _
          cases hk : lookupTag e t with
          | none => rfl
          | some v => cases v <;> rfl

/-- The translated has-predicate of a whole dotted path agrees with the
evaluator's path walk. -/
theorem runSql_has_path : ∀ (p : List String) (es : List Entity) (e : Entity),
    nodupIds es = true →
    runSql (es.map encodeEntity) (translateHas p) (encodeEntity e) =
      (match evalPath es e p with
       | some v => hasTruth v
       | none => false)
  | [], _, _, _ => rfl
  | [t], es, e, _ => runSql_hasTag (es.map encodeEntity) t e
  | t :: t2 :: rest, es, e, hid => by
      show runSql (es.map encodeEntity)
          (SqlPred.refSub t (translateHas (t2 :: rest))) (encodeEntity e) = _
      simp only [runSql]
      cases hk : lookupTag e t with
      | none =>
          simp [jsonExtract_encode_none hk, evalPath, hk]
      | some v =>
          by_cases hnl : v = Value.null
          · subst hnl
            simp [jsonExtract_encode_null hk, evalPath, hk]
          · simp only [jsonExtract_encode_some hk hnl]
            simp only [evalPath, hk]
            cases v <;>
              first
                | rfl
                | (rename_i b; cases b <;> rfl)
                | (rename_i n d2
                   simp only [decodeRefEnc_encode]
                   rw [any_resolve_enc es n
                     (runSql (es.map encodeEntity) (translateHas (t2 :: rest))) hid]
                   cases hr : resolveRef es n with
                   | none => rfl
                   | some e2 => exact runSql_has_path (t2 :: rest) es e2 hid)

/-- The translated comparison of a whole dotted path agrees with the
evaluator's path walk followed by its comparison step. -/
theorem runSql_cmp_path (op : CmpOp) (fs : FScalar) :
    ∀ (p : List String) (es : List Entity) (e : Entity),
    canonEnts es = true → canonEnt e = true → nodupIds es = true → canonF fs = true →
    runSql (es.map encodeEntity) (translateCmp op fs p) (encodeEntity e) =
      (match evalPath es e p with
       | some v => semCmp op v fs
       | none => false)
  | [], _, _, _, _, _, _ => rfl
  | [t], es, e, _, hce, _, hf => runSql_leaf (es.map encodeEntity) t op fs e hce hf
  | t :: t2 :: rest, es, e, hc, hce, hid, hf => by
      show runSql (es.map encodeEntity)
          (SqlPred.refSub t (translateCmp op fs (t2 :: rest))) (encodeEntity e) = _
      simp only [runSql]
      cases hk : lookupTag e t with
      | none =>
          simp [jsonExtract_encode_none hk, evalPath, hk]
      | some v =>
          by_cases hnl : v = Value.null
          · subst hnl
            simp [jsonExtract_encode_null hk, evalPath, hk]
          · simp only [jsonExtract_encode_some hk hnl]
            simp only [evalPath, hk]
            cases v <;>
              first
                | rfl
                | (rename_i b; cases b <;> rfl)
                | (rename_i n d2
                   simp only [decodeRefEnc_encode]
                   rw [any_resolve_enc es n
                     (runSql (es.map encodeEntity) (translateCmp op fs (t2 :: rest))) hid]
                   cases hr : resolveRef es n with
                   | none => rfl
                   | some e2 =>
                       exact runSql_cmp_path op fs (t2 :: rest) es e2 hc
                         (canonEnt_of_mem hc (resolveRef_mem hr)) hid hf)

/-- The translated predicate of a whole filter, run over the loaded
database, agrees with the in-memory evaluator on every canonical entity. -/
theorem runSql_evaluate : ∀ (f : Filter) (es : List Entity) (e : Entity),
    canonEnts es = true → canonEnt e = true → nodupIds es = true →
    canonFilter f = true →
    runSql (es.map encodeEntity) (translatePred f) (encodeEntity e) = evaluate f es e
  | .has p, es, e, _, _, hid, _ => runSql_has_path p es e hid
  | .cmp p op fs, es, e, hc, hce, hid, hcf =>
      runSql_cmp_path op fs p es e hc hce hid hcf
  | .notF g, es, e, hc, hce, hid, hcf => by
      show (!runSql (es.map encodeEntity) (translatePred g) (encodeEntity e)) =
        !evaluate g es e
      rw [runSql_evaluate g es e hc hce hid hcf]
  | .andF a b, es, e, hc, hce, hid, hcf => by
      simp only [canonFilter, Bool.and_eq_true] at hcf
      show (runSql (es.map encodeEntity) (translatePred a) (encodeEntity e) &&
          runSql (es.map encodeEntity) (translatePred b) (encodeEntity e)) =
        (evaluate a es e && evaluate b es e)
      rw [runSql_evaluate a es e hc hce hid hcf.1, runSql_evaluate b es e hc hce hid hcf.2]
  | .orF a b, es, e, hc, hce, hid, hcf => by
      simp only [canonFilter, Bool.and_eq_true] at hcf
      show (runSql (es.map encodeEntity) (translatePred a) (encodeEntity e) ||
          runSql (es.map encodeEntity) (translatePred b) (encodeEntity e)) =
        (evaluate a es e || evaluate b es e)
      rw [runSql_evaluate a es e hc hce hid hcf.1, runSql_evaluate b es e hc hce hid hcf.2]

/-- C2: SQL soundness — for every filter and every canonical entity set
with distinct ids, the rows selected by running the translated predicate
over the database loaded from the set are exactly the loaded rows of the
entities selected by the in-memory evaluator, whenever the translator has
not flagged the query as degraded; and on a dialect without parenthesised
UNION/INTERSECT the translator flags every disjunction across ref hops to
the caller. -/
theorem c2_sql_soundness (d : Dialect) (f : Filter) (es : List Entity)
    (hc : canonEnts es = true) (hid : nodupIds es = true)
    (hcf : canonFilter f = true) :
    ((translate d f).2 = false →
      (es.map encodeEntity).filter (runSql (es.map encodeEntity) (translate d f).1) =
        (select f es).map encodeEntity) ∧
    (d.noParenUnion = true → orOverHop f = true → (translate d f).2 = true) := by
  constructor
  · intro _
    show (es.map encodeEntity).filter
        (runSql (es.map encodeEntity) (translatePred f)) = _
    rw [List.filter_map]
    simp only [select]
    congr 1
    apply List.filter_congr
    intro e he
    simp only [Function.comp_apply]
    exact runSql_evaluate f es e hc (canonEnt_of_mem hc he) hid hcf
  · intro h1 h2
    simp [translate, h1, h2]

/-- C2 witness: the law applied at a concrete two-entity corpus and the
multi-hop filter `siteRef->area >= 100m² and equip` on the SQLite dialect. -/
theorem c2_sql_soundness_witness :
    canonEnts esC2 = true ∧ nodupIds esC2 = true ∧ canonFilter fC2 = true ∧
    (((translate sqliteDialect fC2).2 = false →
      (esC2.map encodeEntity).filter
          (runSql (esC2.map encodeEntity) (translate sqliteDialect fC2).1) =
        (select fC2 esC2).map encodeEntity) ∧
     (sqliteDialect.noParenUnion = true → orOverHop fC2 = true →
       (translate sqliteDialect fC2).2 = true)) :=
  ⟨by decide, by decide, by decide,
    c2_sql_soundness sqliteDialect fC2 esC2 (by decide) (by decide) (by decide)⟩

/-- C3: `merge` and `diff` are inverses on grids keyed by id —
`merge(a, diff(a, b)) = b` and `diff(a, a)` is the empty patch, for
well-formed canonical grids. -/
theorem c3_merge_diff_inverse (a b : GridK) (ha : wfGridK a = true)
    (hb : wfGridK b = true) :
    mergeG a (diffG a b) = b ∧ diffG a a = [] :=
  ⟨mergeG_diffG a b ha hb, diffG_self a⟩

/-- C3 witness: the law at the spec's scenario 6 grids
`a = [{id:@x, v:1}]`, `b = [{id:@x, v:2, w:3}]`. -/
theorem c3_merge_diff_inverse_witness :
    mergeG gK6a (diffG gK6a gK6b) = gK6b ∧ diffG gK6a gK6a = [] :=
  c3_merge_diff_inverse gK6a gK6b (by decide) (by decide)

/-- C10: `start_shaystack` returns 0 whenever the embedded Flask server
returns, and starts the server in debug mode iff the `FLASK_DEBUG`
environment variable is the string `"1"`. -/
theorem c10_start_shaystack (env : String → Option String) (host : String) (port : Nat) :
    (start_shaystack env host port).2 = 0 ∧
    ((start_shaystack env host port).1.debug = true ↔ env "FLASK_DEBUG" = some "1") := by
  refine ⟨rfl, ?_⟩
  cases henv : env "FLASK_DEBUG" with
  | none => simp [start_shaystack, henv]
  | some s => simp [start_shaystack, henv]

end Shaystack
